import Mathlib

/-!
Shallow embedding of the Sibyl configuration engine (src/lib/config.py).

The `Config` class is modelled as a pure state record.  Python's dynamically
typed option values are modelled by the inductive type `Val`; hooks are
optional total Lean functions, with `Option` results standing for functions
that may raise (`none` models a raised exception caught by the engine).
The config file is modelled as its list of physical lines (each without the
trailing newline character); `save_opt`'s replacement block, which in the
source is a single string containing embedded newlines, is modelled as its
two physical lines, which serializes identically.
-/

set_option autoImplicit false

namespace Sibyl

/-- Python values flowing through the option table: strings (raw file
values), ints, bools, string lists (the values produced by the list-valued
built-in parse hooks), the black/white rule list (a list of
`(color, user, cmd)` string triples), and `None`.  The heterogeneous
containers of the source (room/protocol dicts) are not needed by any
claim and are left out so that equality stays decidable. -/
inductive Val where
  | vStr : String → Val
  | vInt : Int → Val
  | vBool : Bool → Val
  | vStrList : List String → Val
  | vBW : List (String × String × String) → Val
  | vNone : Val
  deriving DecidableEq, Repr

/-- Python truthiness (`not self.opts[opt]` in `reload`): empty strings,
zero, `False`, empty lists/dicts and `None` are falsy. -/
def falsy : Val → Bool
  | .vStr s => s == ""
  | .vInt n => n == 0
  | .vBool b => !b
  | .vStrList l => l.isEmpty
  | .vBW l => l.isEmpty
  | .vNone => true

/-- Best-effort rendering of a value, standing in for Python `str()` in log
message interpolation (log text content beyond severity is not load-bearing
for any claim). -/
def showVal : Val → String
  | .vStr s => s
  | .vInt n => toString n
  | .vBool true => "True"
  | .vBool false => "False"
  | .vStrList _ => "[...]"
  | .vBW _ => "[...]"
  | .vNone => "None"

/-! Association lists with string keys model Python (ordered) dicts:
lookup finds the first matching key, `setA` updates in place or appends
(odict update semantics), `eraseA` removes the key. -/

/-- Lookup the first binding of `k`. -/
def lookupA {β : Type} : List (String × β) → String → Option β
  | [], _ => none
  | (k', v) :: t, k => if k' = k then some v else lookupA t k

/-- Update the first binding of `k` in place, or append a new binding
(Python dict assignment on an ordered dict). -/
def setA {β : Type} : List (String × β) → String → β → List (String × β)
  | [], k, v => [(k, v)]
  | (k', v') :: t, k, v => if k' = k then (k', v) :: t else (k', v') :: setA t k v

/-- Remove the first binding of `k` (Python `del d[k]`). -/
def eraseA {β : Type} : List (String × β) → String → List (String × β)
  | [], _ => []
  | (k', v') :: t, k => if k' = k then t else (k', v') :: eraseA t k

/-- Keys of an association list, in order. -/
def keysA {β : Type} (l : List (String × β)) : List String := l.map Prod.fst

/-- Substring search over character lists, modelling Python `str.find`:
returns the first index at which `pat` occurs, or `none`. -/
def findSub : List Char → List Char → Option Nat
  | [], pat => if pat = [] then some 0 else none
  | c :: t, pat => if pat.isPrefixOf (c :: t) then some 0 else (findSub t pat).map (· + 1)

/-- Substring membership, modelling Python `pat in s`. -/
def strContains (s pat : String) : Bool := (findSub s.data pat.data).isSome

/-- Whitespace for Python `str.strip`: space, tab, newline, carriage
return, vertical tab and form feed. -/
def isPyWS (c : Char) : Bool :=
  c == ' ' || c == '\t' || c == '\n' || c == '\r' || c == '\x0b' || c == '\x0c'

/-- Python `str.strip()`: drop leading and trailing whitespace.  (The
core `String.trim` is avoided throughout because it does not reduce
inside the kernel; this structural version does.) -/
def pyStrip (s : String) : String :=
  String.mk (((s.data.dropWhile isPyWS).reverse.dropWhile isPyWS).reverse)

/-- Python `str.startswith`. -/
def pyStartsWith (s pre : String) : Bool := pre.data.isPrefixOf s.data

/-- Python `str.endswith`. -/
def pyEndsWith (s suf : String) : Bool := suf.data.isSuffixOf s.data

/-- Python `str.lower()`. -/
def pyLower (s : String) : String := String.mk (s.data.map Char.toLower)

/-- Base-10 digit run to a number; `none` on an empty run or a non-digit. -/
def digitsOf (l : List Char) : Option Nat :=
  if l = [] then none
  else l.foldl
    (fun acc c => acc.bind (fun n => if c.isDigit then some (n * 10 + (c.toNat - 48)) else none))
    (some 0)

/-- Python `int(s)`: optional sign and base-10 digits after stripping
whitespace; `none` models the `ValueError`. -/
def pyToInt (s : String) : Option Int :=
  match (pyStrip s).data with
  | '-' :: rest => (digitsOf rest).map (fun n => -(n : Int))
  | '+' :: rest => (digitsOf rest).map (fun n => (n : Int))
  | rest => (digitsOf rest).map (fun n => (n : Int))

/-- Option descriptor: the tuple stored in `Config.OPTS`
(`default, required, parse_func, validate_func, post_func`).  A `parse`
hook takes the option name and raw string and returns `none` when the
Python function would raise; a `post` hook additionally takes the tentative
option table. -/
structure OptDesc where
  default : Val
  req : Bool
  parse : Option (String → String → Option Val)
  valid : Option (Val → Bool)
  post : Option (List (String × Val) → String → Val → Option Val)

/-- State of a `Config` object.  `conf_file` holds the config file's
contents as physical lines; the file-system indirection of the source is
internalized into the state. -/
structure Config where
  OPTS : List (String × OptDesc)
  NS : List (String × String)
  opts : List (String × Val)
  conf_file : List String
  log_msgs : List (String × String)
  logging : Bool

/-- Reload result code `FAIL = 0`. -/
def Config.FAIL : Nat := 0
/-- Reload result code `SUCCESS = 1`. -/
def Config.SUCCESS : Nat := 1
/-- Reload result code `ERRORS = 2`. -/
def Config.ERRORS : Nat := 2

/-- Name of the synthesized implicit section (`DUMMY = 'dummy'`). -/
def DUMMY : String := "dummy"

/-- Append a message to the deferred log queue when logging is enabled
(`Config.log`). -/
def Config.log (c : Config) (lvl msg : String) : Config :=
  { c with log_msgs := if c.logging then c.log_msgs ++ [(lvl, msg)] else c.log_msgs }

/-- Python 2 mixed-type comparison used by `reload`'s
`x[0] >= logging.WARNING`: log severities are stored as strings
(for example `'info'`) while `logging.WARNING` is the int `30`, and in
CPython 2 objects of mismatched types order by type name, with
`'int' < 'str'`, so a string compares greater-or-equal to an int for every
string and every int. -/
def pyStrGeInt (_s : String) (_n : Int) : Bool := true

/-- Numeric value of `logging.WARNING`. -/
def WARNING_LEVEL : Int := 30

/-- Defaults table (`Config.get_default`): an ordered dict mapping each
registered option to its default value, in registration order. -/
def get_default (OPTS : List (String × OptDesc)) : List (String × Val) :=
  OPTS.map (fun kv => (kv.1, kv.2.default))

/-! The raw file reader.  The source delegates line parsing to the external
`ConfigParser.SafeConfigParser` (standard library, not part of this
repository), wrapped in `FakeSecHead` which synthesizes the implicit
`[dummy]` section. -/

/-- Index of the first assignment delimiter (`=` or `:`) in a line. -/
def delimIdx (t : String) : Option Nat :=
  match findSub t.data ['='], findSub t.data [':'] with
  | some i, some j => some (min i j)
  | some i, none => some i
  | none, some j => some j
  | none, none => none

/-- Modelled from the spec: split a (trimmed, non-comment) line into a
`key`/`value` pair at the first `=` or `:`, the `key = value` or
`key: value` syntax of the Raw File Reader (§4.2); `none` when the line is
not an assignment (a malformed line).  This stands in for the option
regular expression of the standard library's `SafeConfigParser`, which is
not part of this repository. -/
def splitAssign (t : String) : Option (String × String) :=
  match delimIdx t with
  | none => none
  | some i =>
    let k := pyStrip (String.mk (t.data.take i))
    let v := pyStrip (String.mk (t.data.drop (i + 1)))
    if k = "" then none else some (k, v)

/-- State of the line-by-line read: the sections accumulated so far (the
implicit `dummy` section first) and the name of the current section. -/
def readStep (acc : Option (List (String × List (String × String)) × String))
    (line : String) : Option (List (String × List (String × String)) × String) :=
  match acc with
  | none => none
  | some (secs, cur) =>
    let t := pyStrip line
    if t = "" then some (secs, cur)
    else if pyStartsWith t "#" || pyStartsWith t ";" then some (secs, cur)
    else if pyStartsWith t "[" && pyEndsWith t "]" then
      let name := String.mk (t.data.drop 1).dropLast
      if (lookupA secs name).isSome then some (secs, name)
      else some (secs ++ [(name, [])], name)
    else
      match splitAssign t with
      | some kv => some (secs.map (fun s => if s.1 = cur then (s.1, setA s.2 kv.1 kv.2) else s), cur)
      | none => none

/-- Modelled from the spec: the Raw File Reader (§4.2) over the standard
ini-style grammar, with the single implicit section synthesized by
`FakeSecHead`.  Blank and `#`/`;`-commented lines are skipped, `[name]`
lines open a (to-be-ignored) section, `key = value` / `key: value` lines
record an option in the current section (a later duplicate key wins), and
any other line makes the whole read fail (`none`), the structured read
failure; continuation lines and value interpolation of the underlying
`ConfigParser` are not part of the spec and are not modelled. -/
def readConf (lines : List String) : Option (List (String × List (String × String))) :=
  (lines.foldl readStep (some ([(DUMMY, [])], DUMMY))).map Prod.fst

/-- Read stage (`Config.__read`): parse the config file; on a read failure
log a critical entry (plus the error/debug detail, whose text interpolates
the Python traceback in the source) and return an empty map; otherwise log
an error for every real (non-`dummy`) section and return the implicit
section's items. -/
def Config.readOpts (c : Config) : Config × List (String × String) :=
  match readConf c.conf_file with
  | none =>
    let c := c.log "critical" "Unable to read/parse config file"
    let c := c.log "error" "  (exception text)"
    let c := c.log "debug" "(traceback)"
    (c, [])
  | some secs =>
    let c := secs.foldl
      (fun c sec => if sec.1 ≠ DUMMY then
        c.log "error" ("Ignoring section \"" ++ sec.1 ++ "\" in config file") else c) c
    (c, (lookupA secs DUMMY).getD [])

/-- Result of the parse stage for a single present option: the raw string
when there is no parse hook, otherwise the hook's result (`none` models a
raised exception). -/
def parsedVal (d : OptDesc) (opt v : String) : Option Val :=
  match d.parse with
  | none => some (Val.vStr v)
  | some f => f opt v

/-- Result of the validate stage for a single option: `true` when there is
no validate hook, otherwise the hook's verdict. -/
def validOk (d : OptDesc) (v : Val) : Bool :=
  match d.valid with
  | none => true
  | some f => f v

/-- Parse stage (`Config.__parse`), as a recursion over the raw items of
the file in order: drop unknown options with an informational log entry,
run parse hooks on the rest, dropping options whose parse hook raises with
an error log entry naming the default (`self.opts` holds the defaults
table at this point). -/
def Config.parseOpts (c : Config) : List (String × String) → Config × List (String × Val)
  | [] => (c, [])
  | kv :: t =>
    match lookupA c.OPTS kv.1 with
    | none => Config.parseOpts (c.log "info" ("Unknown config option \"" ++ kv.1 ++ "\"")) t
    | some d =>
      match parsedVal d kv.1 kv.2 with
      | some pv =>
        let r := Config.parseOpts c t
        (r.1, (kv.1, pv) :: r.2)
      | none =>
        Config.parseOpts
          (c.log "error" ("Error parsing \"" ++ kv.1 ++ "\"; using default=" ++
            showVal ((lookupA c.opts kv.1).getD Val.vNone))) t

/-- Validate stage (`Config.__validate`), recursing over the parsed items
in order: drop options whose validate hook returns false, with an error
log entry naming the default. -/
def Config.validateOpts (c : Config) : List (String × Val) → Config × List (String × Val)
  | [] => (c, [])
  | kv :: t =>
    match lookupA c.OPTS kv.1 with
    | none =>
      let r := Config.validateOpts c t
      (r.1, kv :: r.2)
    | some d =>
      match d.valid with
      | none =>
        let r := Config.validateOpts c t
        (r.1, kv :: r.2)
      | some f =>
        if f kv.2 then
          let r := Config.validateOpts c t
          (r.1, kv :: r.2)
        else
          Config.validateOpts
            (c.log "error" ("Invalid value for \"" ++ kv.1 ++ "\"; using default=" ++
              showVal ((lookupA c.opts kv.1).getD Val.vNone))) t

/-- Post stage (`Config.__post`), recursing over the snapshot of the
merged table's keys (`opts.keys()`), threading the table being mutated:
each post hook sees the table as mutated so far; on success the option's
entry is updated in place, and when a hook raises the engine logs an error
naming a default and then deletes the option's entry from the table
(`del opts[opt]` on the merged table itself). -/
def Config.postRec (c : Config) (t : List (String × Val)) :
    List String → Config × List (String × Val)
  | [] => (c, t)
  | k :: ks =>
    match lookupA c.OPTS k with
    | none => Config.postRec c t ks
    | some d =>
      match d.post with
      | none => Config.postRec c t ks
      | some f =>
        match lookupA t k with
        | none => Config.postRec c t ks
        | some v =>
          match f t k v with
          | some v2 => Config.postRec c (setA t k v2) ks
          | none =>
            Config.postRec
              (c.log "error" ("Error running post for \"" ++ k ++ "\"; using default=" ++
                showVal v)) (eraseA t k) ks

/-- Post stage entry point: iterate over the keys of the merged table. -/
def Config.postOpts (c : Config) (m : List (String × Val)) : Config × List (String × Val) :=
  Config.postRec c m (keysA m)

/-- Python dict `update`: set every binding of `l` into `t`, in order. -/
def mergeInto (t : List (String × Val)) (l : List (String × Val)) : List (String × Val) :=
  l.foldl (fun t kv => setA t kv.1 kv.2) t

/-- Update stage (`Config.__update`): seed the table with the defaults,
read the file, parse and validate the present values, merge the survivors
over the defaults (dict `update`), then run the post hooks over the merged
table. -/
def Config.update (c : Config) : Config :=
  let c0 := { c with opts := get_default c.OPTS }
  let r1 := c0.readOpts
  let r2 := r1.1.parseOpts r1.2
  let r3 := r2.1.validateOpts r2.2
  let merged := mergeInto r3.1.opts r3.2
  let c4 := { r3.1 with opts := merged }
  let r5 := c4.postOpts c4.opts
  { r5.1 with opts := r5.2 }

/-- Required-option check of `Config.reload`: log a critical entry for
every required option whose final value is falsy, counting them. -/
def Config.reqCheck (c : Config) : List (String × Val) → Config × Nat
  | [] => (c, 0)
  | kv :: t =>
    match lookupA c.OPTS kv.1 with
    | some d =>
      if d.req && falsy kv.2 then
        let r := Config.reqCheck
          (c.log "critical" ("Missing required option \"" ++ kv.1 ++ "\"")) t
        (r.1, r.2 + 1)
      else Config.reqCheck c t
    | none => Config.reqCheck c t

/-- Reload (`Config.reload`): run `__update`, check required options, and
classify: `FAIL` when a required option is missing, else `ERRORS` when any
queued message counts as a warning under the Python 2 comparison (see
`pyStrGeInt`), else `SUCCESS`. -/
def Config.reload (c : Config) (log : Bool) : Config × Nat :=
  let orig := c.logging
  let c := { c with logging := log }
  let c := c.update
  let acc := c.reqCheck c.opts
  let c := { acc.1 with logging := orig }
  if acc.2 > 0 then (c, Config.FAIL)
  else if (c.log_msgs.filter (fun x => pyStrGeInt x.1 WARNING_LEVEL)).length > 0 then
    (c, Config.ERRORS)
  else (c, Config.SUCCESS)

/-- Registration (`Config.add_opt`): a duplicate name logs a critical
message naming both namespaces and raises `DuplicateOptError`; the raise
carries no arguments in the source, so the exception's own message is the
empty string.  On success the descriptor is appended to the ordered schema
table and the namespace recorded. -/
def Config.add_opt (c : Config) (name : String) (d : OptDesc) (ns : String) :
    Config × Except String Unit :=
  if (lookupA c.OPTS name).isSome then
    (c.log "critical" ("Duplicate opt \"" ++ name ++ "\" from \"" ++
      (lookupA c.NS name).getD "" ++ "\" and \"" ++ ns ++ "\""), Except.error "")
  else
    ({ c with OPTS := c.OPTS ++ [(name, d)], NS := setA c.NS name ns }, Except.ok ())

/-- Single-option set (`Config.set_opt`): run parse, validate and post for
one option and store the result in the live table, returning `false` (with
no state change) when the option is unknown (the `KeyError` is caught by
the bare `except`) or when any stage fails. -/
def Config.set_opt (c : Config) (opt v : String) : Config × Bool :=
  match lookupA c.OPTS opt with
  | none => (c, false)
  | some d =>
    match parsedVal d opt v with
    | none => (c, false)
    | some pv =>
      if !(validOk d pv) then (c, false)
      else
        match (match d.post with | none => some pv | some f => f c.opts opt pv) with
        | none => (c, false)
        | some pv2 => ({ c with opts := setA c.opts opt pv2 }, true)

/-- Active-option test (`Config.__is_opt_line`): a non-comment line with an
`=` that is not preceded by an inline ` ;` comment mark. -/
def is_opt_line (line : String) : Bool :=
  let line := pyStrip line
  if pyStartsWith line "#" || pyStartsWith line ";" then false
  else
    match findSub line.data ['='] with
    | none => false
    | some setChar =>
      match findSub line.data [' ', ';'] with
      | none => true
      | some comChar => decide (setChar < comChar)

/-- Deletion loop of `save_opt` (source lines 230-238): walk the lines
after the deleted assignment, stopping at the next active option line,
skipping (keeping) comment and blank lines, and deleting every other line
(continuations of the replaced assignment). -/
def delCont : List String → List String
  | [] => []
  | l :: ls =>
    let t := pyStrip l
    if is_opt_line t then l :: ls
    else if pyStartsWith t "#" || pyStartsWith t ";" || t.length == 0 then l :: delCont ls
    else delCont ls

/-- Line surgery of `save_opt`: find the first line whose stripped text
starts with `opt`; if none, append the replacement block, else delete that
line and its continuations (`delCont`), insert the block at that position,
and drop an immediately preceding modification-stamp line. -/
def saveLines (lines : List String) (opt : String) (block : List String) : List String :=
  match lines.findIdx? (fun l => pyStartsWith (pyStrip l) opt) with
  | none => lines ++ block
  | some start =>
    let pre := lines.take start
    let rest := lines.drop (start + 1)
    match pre.getLast? with
    | some lastLine =>
      if pyStartsWith lastLine "### MODIFIED: " then pre.dropLast ++ block ++ delCont rest
      else pre ++ block ++ delCont rest
    | none => pre ++ block ++ delCont rest

/-- Modification-stamp comment of `save_opt`: `### MODIFIED: <time>`,
plus the optional annotation in parentheses. -/
def stampLine (now : String) (msg : Option String) : String :=
  "### MODIFIED: " ++ now ++ (match msg with | some m => " (" ++ m ++ ")" | none => "")

/-- Replacement assignment line of `save_opt`: `opt = val` with the raw
string value. -/
def assignLine (opt v : String) : String := opt ++ " = " ++ v

/-- Single-option save (`Config.save_opt`): `set_opt` first, returning
`false` with no file write on failure; on success rewrite the file with a
replacement block of a timestamped comment (`time.asctime()` is passed in
as `now`) plus the `opt = val` assignment. -/
def Config.save_opt (c : Config) (opt v : String) (msg : Option String) (now : String) :
    Config × Bool :=
  match c.set_opt opt v with
  | (c1, false) => (c1, false)
  | (c1, true) =>
    ({ c1 with conf_file := saveLines c1.conf_file opt [stampLine now msg, assignLine opt v] },
      true)

/-- Query of the live option table (`self.opts[name]` in the source; the
spec's `get(name)`). -/
def Config.get (c : Config) (opt : String) : Option Val := lookupA c.opts opt

/-! Built-in hooks needed by the claims. -/

/-- Polarity of a black/white rule that allows: stored as `'w'`
(white-list) in the source — the default `bw_list` is `[('w','*','*')]`,
which allows everything. -/
def allowPolarity : String := "w"

/-- Polarity of a black/white rule that denies: stored as `'b'`
(black-list) in the source. -/
def denyPolarity : String := "b"

/-- Black/white-list validate hook (`Config.valid_bw`): accept when every
rule's color is `'b'` or `'w'`.  The source iterates the value as a list
of triples; a value of any other shape would raise in Python and is mapped
to `false` here (no claim depends on such inputs). -/
def valid_bw (v : Val) : Bool :=
  match v with
  | .vBW bw => bw.all (fun r => r.1 == "b" || r.1 == "w")
  | _ => false

/-- Boolean parse hook (`Config.parse_bool`): case-insensitive
`true`/`false` after stripping, anything else raises `ValueError`. -/
def parse_bool (_opt v : String) : Option Val :=
  if pyLower (pyStrip v) = "true" then some (.vBool true)
  else if pyLower (pyStrip v) = "false" then some (.vBool false)
  else none

/-- Relation between a configuration and a later one differing only by
messages appended to the deferred log queue: every field but `log_msgs` is
unchanged, and the old queue is a prefix of the new one.  Each stage of a
reload mutates the `Config` only this way. -/
def LogExt (c c' : Config) : Prop :=
  c'.OPTS = c.OPTS ∧ c'.NS = c.NS ∧ c'.opts = c.opts ∧ c'.conf_file = c.conf_file ∧
  c'.logging = c.logging ∧ ∃ ext, c'.log_msgs = c.log_msgs ++ ext



/-- Integer parse hook (`Config.parse_int`): Python `int(val)`, modelled as
a base-10 integer parse with optional sign after stripping whitespace;
`none` models the `ValueError`. -/
def parse_int (_opt v : String) : Option Val := (pyToInt v).map Val.vInt

/-- Failure of some stage of the per-option Hook Pipeline (spec 4.3) on a
raw value, with post applied against the table `t` (the live table, in the
`set_opt` path): the parse hook raises, or the validate hook rejects, or
the post hook raises. -/
def pipelineFails (t : List (String × Val)) (d : OptDesc) (opt v : String) : Prop :=
  parsedVal d opt v = none ∨
  (∃ pv, parsedVal d opt v = some pv ∧ validOk d pv = false) ∨
  (∃ pv f, parsedVal d opt v = some pv ∧ validOk d pv = true ∧ d.post = some f ∧
    f t opt pv = none)

/-! Concrete descriptors and configurations used as witnesses and
counterexamples. -/

/-- Example descriptor with no hooks (a plain string-valued option). -/
def dPlain : OptDesc :=
  { default := .vStr "d", req := false, parse := none, valid := none, post := none }

/-- Example boolean descriptor using the built-in `parse_bool` hook. -/
def dBool : OptDesc :=
  { default := .vBool true, req := false, parse := some parse_bool, valid := none, post := none }

/-- Example post hook that always raises (a plugin hook registered through
`add_opt` may behave this way). -/
def postFailHook : List (String × Val) → String → Val → Option Val := fun _ _ _ => none

/-- Example descriptor whose post hook always raises. -/
def dPostFail : OptDesc :=
  { default := .vStr "defv", req := false, parse := none, valid := none,
    post := some postFailHook }

/-- Example value transformer: increment an integer, raise otherwise. -/
def incrVal : Val → Option Val
  | .vInt n => some (.vInt (n + 1))
  | _ => none

/-- Example post hook ignoring the table and name: increments the value.
Being non-idempotent, it distinguishes one post application from two. -/
def incrPost : List (String × Val) → String → Val → Option Val := fun _ _ x => incrVal x

/-- Example integer descriptor with the incrementing post hook. -/
def dIncr : OptDesc :=
  { default := .vInt 0, req := false, parse := some parse_int, valid := none,
    post := some incrPost }

/-- Configuration with an always-raising post hook on `x` and `x = 5` in
the file. -/
def cfgC1 : Config :=
  { OPTS := [("x", dPostFail)], NS := [("x", "sibylbot")], opts := [],
    conf_file := ["x = 5"], log_msgs := [], logging := true }

/-- Configuration with one non-required option and a file containing only
the unknown key `foo`. -/
def cfgC2 : Config :=
  { OPTS := [("y", dBool)], NS := [("y", "sibylbot")], opts := [],
    conf_file := ["foo = 1"], log_msgs := [], logging := true }

/-- Configuration with the incrementing post hook on `x` and `x = 5` in
the file. -/
def cfgC3 : Config :=
  { OPTS := [("x", dIncr)], NS := [("x", "sibylbot")], opts := [],
    conf_file := ["x = 5"], log_msgs := [], logging := true }

/-- Configuration whose file contains a malformed line. -/
def cfgC6 : Config :=
  { OPTS := [], NS := [], opts := [], conf_file := ["bad line"],
    log_msgs := [], logging := true }

/-- Configuration with a boolean option `flag` currently `True`. -/
def cfgC7 : Config :=
  { OPTS := [("flag", dBool)], NS := [("flag", "sibylbot")],
    opts := [("flag", .vBool true)], conf_file := ["flag = true"],
    log_msgs := [], logging := true }

/-- Configuration with `x` registered by namespace `sibylbot`. -/
def cfgC8 : Config :=
  { OPTS := [("x", dPlain)], NS := [("x", "sibylbot")], opts := [],
    conf_file := [], log_msgs := [], logging := true }

/-- Configuration with a single registered option `known`. -/
def cfgC10 : Config :=
  { OPTS := [("known", dPlain)], NS := [("known", "sibylbot")],
    opts := [("known", .vStr "d")], conf_file := ["known = d"],
    log_msgs := [], logging := true }


/-- Comment or blank line test, matching both the reader's skip conditions
and the keep conditions of `save_opt`'s deletion loop. -/
def commentBlank (l : String) : Bool :=
  pyStartsWith (pyStrip l) "#" || pyStartsWith (pyStrip l) ";" ||
    (pyStrip l).length == 0

/-- Line that both the reader accepts as an assignment and
`__is_opt_line` recognizes as an active option (and that is not a section
header). -/
def goodAssign (l : String) : Bool :=
  (splitAssign (pyStrip l)).isSome && is_opt_line (pyStrip l) &&
    !(pyStartsWith (pyStrip l) "[")

/-- Well-formed config line: blank, comment, or a plain active
assignment. -/
def goodLine (l : String) : Bool := commentBlank l || goodAssign l

/-- Items that the reader collects from a sequence of well-formed lines
into the implicit section, later duplicates overwriting earlier ones. -/
def itemsOf (init : List (String × String)) : List String → List (String × String)
  | [] => init
  | l :: ls =>
    if commentBlank l then itemsOf init ls
    else
      match splitAssign (pyStrip l) with
      | some kv => itemsOf (setA init kv.1 kv.2) ls
      | none => itemsOf init ls

/-- Test for a (non-comment) line assigning to the key `name`. -/
def lineSetsKey (l : String) (name : String) : Bool :=
  !(commentBlank l) &&
    (match splitAssign (pyStrip l) with
     | some kv => kv.1 == name
     | none => false)

/-- Configuration with the incrementing post hook on `x` and `x = 0` in
the file, for the save-then-reload round trip. -/
def cfgC4 : Config :=
  { OPTS := [("x", dIncr)], NS := [("x", "sibylbot")], opts := [],
    conf_file := ["x = 0"], log_msgs := [], logging := true }

/-- Configuration with two plain options and a comment line between their
assignments in the file. -/
def cfgC5 : Config :=
  { OPTS := [("opt1", dPlain), ("opt2", dPlain)],
    NS := [("opt1", "sibylbot"), ("opt2", "sibylbot")], opts := [],
    conf_file := ["# header", "opt1 = a", "# keep me", "opt2 = b"],
    log_msgs := [], logging := true }

/-- Configuration with a plain boolean option for the round-trip witness. -/
def cfgC4b : Config :=
  { OPTS := [("flag", dBool), ("other", dPlain)],
    NS := [("flag", "sibylbot"), ("other", "sibylbot")], opts := [],
    conf_file := ["# head", "flag = true", "other = z"],
    log_msgs := [], logging := true }


/-- Descriptor whose validate hook rejects every value. -/
def dValFail : OptDesc :=
  { default := .vInt 1, req := false, parse := none, valid := some (fun _ => false),
    post := none }

/-- Configuration whose file precedes the matched assignment with a stamp
comment from an earlier save. -/
def cfgC5b : Config :=
  { OPTS := [("opt1", dPlain), ("opt2", dPlain)],
    NS := [("opt1", "sibylbot"), ("opt2", "sibylbot")], opts := [],
    conf_file := ["### MODIFIED: OLD", "opt1 = a", "# keep me", "opt2 = b"],
    log_msgs := [], logging := true }

/-- Configuration with a readable file whose boolean option has an
unparsable value. -/
def cfgC6b : Config :=
  { OPTS := [("flag", dBool)], NS := [("flag", "sibylbot")], opts := [],
    conf_file := ["flag = zzz"], log_msgs := [], logging := true }

/-- Configuration with a readable file whose option fails validation. -/
def cfgC6c : Config :=
  { OPTS := [("vx", dValFail)], NS := [("vx", "sibylbot")], opts := [],
    conf_file := ["vx = 1"], log_msgs := [], logging := true }

/-- Configuration with a readable file whose option's post hook raises. -/
def cfgC6d : Config :=
  { OPTS := [("x", dPostFail)], NS := [("x", "sibylbot")], opts := [],
    conf_file := ["x = 5"], log_msgs := [], logging := true }

-- DEFS-BELOW-MARKER

/-! Theorems: properties of the association-list operations. -/

@[simp] theorem lookupA_nil {β : Type} (k : String) : lookupA ([] : List (String × β)) k = none := rfl

@[simp] theorem lookupA_cons {β : Type} (k' k : String) (v : β) (t : List (String × β)) :
    lookupA ((k', v) :: t) k = if k' = k then some v else lookupA t k := rfl

@[simp] theorem setA_nil {β : Type} (k : String) (v : β) : setA ([] : List (String × β)) k v = [(k, v)] := rfl

@[simp] theorem setA_cons {β : Type} (k' k : String) (v' v : β) (t : List (String × β)) :
    setA ((k', v') :: t) k v = if k' = k then (k', v) :: t else (k', v') :: setA t k v := rfl

@[simp] theorem eraseA_nil {β : Type} (k : String) : eraseA ([] : List (String × β)) k = [] := rfl

@[simp] theorem eraseA_cons {β : Type} (k' k : String) (v' : β) (t : List (String × β)) :
    eraseA ((k', v') :: t) k = if k' = k then t else (k', v') :: eraseA t k := rfl

/-! Lemmas about the association-list operations. -/

@[simp] theorem keysA_nil {β : Type} : keysA ([] : List (String × β)) = [] := rfl

@[simp] theorem keysA_cons {β : Type} (k : String) (v : β) (t : List (String × β)) :
    keysA ((k, v) :: t) = k :: keysA t := rfl

theorem lookupA_setA_self {β : Type} (l : List (String × β)) (k : String) (v : β) :
    lookupA (setA l k v) k = some v := by
  induction l with
  | nil => simp
  | cons hd t ih =>
    obtain ⟨k', v'⟩ := hd
    by_cases hk : k' = k
    · subst hk; simp
    · simp [hk, ih]

theorem lookupA_setA_ne {β : Type} (l : List (String × β)) (k q : String) (v : β)
    (h : q ≠ k) : lookupA (setA l k v) q = lookupA l q := by
  induction l with
  | nil => simp [Ne.symm h]
  | cons hd t ih =>
    obtain ⟨k', v'⟩ := hd
    by_cases hk : k' = k
    · subst hk
      have hkq : ¬ k' = q := fun hh => h hh.symm
      simp [hkq, Ne.symm h]
    · by_cases hq : k' = q
      · subst hq; simp [hk]
      · simp [hk, hq, ih]

theorem lookupA_eraseA_ne {β : Type} (l : List (String × β)) (k q : String)
    (h : q ≠ k) : lookupA (eraseA l k) q = lookupA l q := by
  induction l with
  | nil => simp
  | cons hd t ih =>
    obtain ⟨k', v'⟩ := hd
    by_cases hk : k' = k
    · subst hk
      have hkq : ¬ k' = q := fun hh => h hh.symm
      simp [hkq]
    · by_cases hq : k' = q
      · subst hq; simp [hk]
      · simp [hk, hq, ih]

theorem mem_keysA_of_lookupA {β : Type} (l : List (String × β)) (k : String) (v : β)
    (h : lookupA l k = some v) : k ∈ keysA l := by
  induction l with
  | nil => simp at h
  | cons hd t ih =>
    obtain ⟨k', v'⟩ := hd
    by_cases hk : k' = k
    · subst hk; simp
    · simp [hk] at h
      simp [ih h]

theorem lookupA_eq_none_of_not_mem {β : Type} (l : List (String × β)) (k : String)
    (h : k ∉ keysA l) : lookupA l k = none := by
  induction l with
  | nil => rfl
  | cons hd t ih =>
    obtain ⟨k', v'⟩ := hd
    rw [keysA_cons, List.mem_cons] at h
    push_neg at h
    simp [Ne.symm h.1, ih h.2]

theorem not_mem_keysA_of_lookupA_none {β : Type} (l : List (String × β)) (k : String)
    (h : lookupA l k = none) : k ∉ keysA l := by
  induction l with
  | nil => simp
  | cons hd t ih =>
    obtain ⟨k', v'⟩ := hd
    by_cases hk : k' = k
    · subst hk; simp at h
    · simp [hk] at h
      simp [Ne.symm hk, ih h]

theorem lookupA_eraseA_self {β : Type} (l : List (String × β)) (k : String)
    (h : (keysA l).Nodup) : lookupA (eraseA l k) k = none := by
  induction l with
  | nil => rfl
  | cons hd t ih =>
    obtain ⟨k', v'⟩ := hd
    rw [keysA_cons, List.nodup_cons] at h
    by_cases hk : k' = k
    · subst hk
      simp [lookupA_eq_none_of_not_mem t k' h.1]
    · simp [hk, ih h.2]

theorem keysA_setA_of_mem {β : Type} (l : List (String × β)) (k : String) (v : β)
    (h : k ∈ keysA l) : keysA (setA l k v) = keysA l := by
  induction l with
  | nil => simp at h
  | cons hd t ih =>
    obtain ⟨k', v'⟩ := hd
    by_cases hk : k' = k
    · subst hk; simp
    · rw [keysA_cons, List.mem_cons] at h
      rcases h with h | h
      · exact absurd h.symm hk
      · simp [hk, ih h]

theorem keysA_setA_of_not_mem {β : Type} (l : List (String × β)) (k : String) (v : β)
    (h : k ∉ keysA l) : keysA (setA l k v) = keysA l ++ [k] := by
  induction l with
  | nil => simp
  | cons hd t ih =>
    obtain ⟨k', v'⟩ := hd
    rw [keysA_cons, List.mem_cons] at h
    push_neg at h
    simp [Ne.symm h.1, ih h.2]

theorem keysA_eraseA_sub {β : Type} (l : List (String × β)) (k : String) :
    keysA (eraseA l k) ⊆ keysA l := by
  induction l with
  | nil => simp
  | cons hd t ih =>
    obtain ⟨k', v'⟩ := hd
    by_cases hk : k' = k
    · subst hk
      rw [eraseA_cons, if_pos rfl, keysA_cons]
      exact fun a ha => List.mem_cons_of_mem _ ha
    · rw [eraseA_cons, if_neg hk, keysA_cons, keysA_cons]
      intro a ha
      rcases List.mem_cons.mp ha with ha | ha
      · exact ha ▸ List.mem_cons_self _ _
      · exact List.mem_cons_of_mem _ (ih ha)

theorem nodup_keysA_eraseA {β : Type} (l : List (String × β)) (k : String)
    (h : (keysA l).Nodup) : (keysA (eraseA l k)).Nodup := by
  induction l with
  | nil => simp
  | cons hd t ih =>
    obtain ⟨k', v'⟩ := hd
    rw [keysA_cons, List.nodup_cons] at h
    by_cases hk : k' = k
    · subst hk
      rw [eraseA_cons, if_pos rfl]
      exact h.2
    · rw [eraseA_cons, if_neg hk, keysA_cons, List.nodup_cons]
      exact ⟨fun hmem => h.1 (keysA_eraseA_sub t k hmem), ih h.2⟩

@[simp] theorem log_OPTS (c : Config) (l m : String) : (c.log l m).OPTS = c.OPTS := rfl

@[simp] theorem log_NS (c : Config) (l m : String) : (c.log l m).NS = c.NS := rfl

@[simp] theorem log_opts (c : Config) (l m : String) : (c.log l m).opts = c.opts := rfl

@[simp] theorem log_conf_file (c : Config) (l m : String) : (c.log l m).conf_file = c.conf_file := rfl

@[simp] theorem log_logging (c : Config) (l m : String) : (c.log l m).logging = c.logging := rfl

theorem log_log_msgs (c : Config) (l m : String) :
    (c.log l m).log_msgs = if c.logging then c.log_msgs ++ [(l, m)] else c.log_msgs := rfl

theorem nodup_keysA_setA {β : Type} (l : List (String × β)) (k : String) (v : β)
    (h : (keysA l).Nodup) : (keysA (setA l k v)).Nodup := by
  by_cases hkl : k ∈ keysA l
  · rw [keysA_setA_of_mem l k v hkl]; exact h
  · rw [keysA_setA_of_not_mem l k v hkl]
    rw [List.nodup_append]
    refine ⟨h, List.nodup_singleton k, ?_⟩
    intro a ha hmem
    rw [List.mem_singleton] at hmem
    subst hmem
    exact hkl ha



theorem logExt_rfl (c : Config) : LogExt c c :=
  ⟨rfl, rfl, rfl, rfl, rfl, [], by simp⟩

theorem logExt_trans {a b c : Config} (h1 : LogExt a b) (h2 : LogExt b c) : LogExt a c := by
  obtain ⟨o1, n1, p1, f1, g1, e1, he1⟩ := h1
  obtain ⟨o2, n2, p2, f2, g2, e2, he2⟩ := h2
  exact ⟨o2.trans o1, n2.trans n1, p2.trans p1, f2.trans f1, g2.trans g1,
    e1 ++ e2, by rw [he2, he1, List.append_assoc]⟩

theorem logExt_log (c : Config) (l m : String) : LogExt c (c.log l m) := by
  refine ⟨rfl, rfl, rfl, rfl, rfl, ?_⟩
  rw [log_log_msgs]
  by_cases h : c.logging
  · exact ⟨[(l, m)], by simp [h]⟩
  · exact ⟨[], by simp [h]⟩

theorem logExt_readOpts (c : Config) : LogExt c (c.readOpts).1 := by
  unfold Config.readOpts
  match hr : readConf c.conf_file with
  | none =>
    simp only [hr]
    exact logExt_trans (logExt_trans (logExt_log c _ _) (logExt_log _ _ _)) (logExt_log _ _ _)
  | some secs =>
    simp only [hr]
    have : ∀ (ss : List (String × List (String × String))) (c0 : Config),
        LogExt c0 (ss.foldl (fun c sec => if sec.1 ≠ DUMMY then
          c.log "error" ("Ignoring section \"" ++ sec.1 ++ "\" in config file") else c) c0) := by
      intro ss
      induction ss with
      | nil => exact fun c0 => logExt_rfl c0
      | cons s t ih =>
        intro c0
        simp only [List.foldl_cons]
        by_cases hs : s.1 ≠ DUMMY
        · rw [if_pos hs]
          exact logExt_trans (logExt_log c0 _ _) (ih _)
        · rw [if_neg hs]
          exact ih c0
    exact this secs c

theorem logExt_parseOpts (c : Config) (raw : List (String × String)) :
    LogExt c (c.parseOpts raw).1 := by
  induction raw generalizing c with
  | nil => exact logExt_rfl c
  | cons kv t ih =>
    unfold Config.parseOpts
    match h1 : lookupA c.OPTS kv.1 with
    | none =>
      simp only [h1]
      exact logExt_trans (logExt_log c _ _) (ih _)
    | some d =>
      simp only [h1]
      match h2 : parsedVal d kv.1 kv.2 with
      | some pv => simpa only [h2] using ih c
      | none =>
        simp only [h2]
        exact logExt_trans (logExt_log c _ _) (ih _)

theorem logExt_validateOpts (c : Config) (m : List (String × Val)) :
    LogExt c (c.validateOpts m).1 := by
  induction m generalizing c with
  | nil => exact logExt_rfl c
  | cons kv t ih =>
    unfold Config.validateOpts
    match h1 : lookupA c.OPTS kv.1 with
    | none => simpa only [h1] using ih c
    | some d =>
      simp only [h1]
      match h2 : d.valid with
      | none => simpa only [h2] using ih c
      | some f =>
        simp only [h2]
        by_cases h3 : f kv.2
        · simpa only [if_pos h3] using ih c
        · rw [if_neg h3]
          exact logExt_trans (logExt_log c _ _) (ih _)

theorem logExt_postRec (c : Config) (t : List (String × Val)) (ks : List String) :
    LogExt c (c.postRec t ks).1 := by
  induction ks generalizing c t with
  | nil => exact logExt_rfl c
  | cons k kt ih =>
    unfold Config.postRec
    match h1 : lookupA c.OPTS k with
    | none => simpa only [h1] using ih c t
    | some d =>
      simp only [h1]
      match h2 : d.post with
      | none => simpa only [h2] using ih c t
      | some f =>
        simp only [h2]
        match h3 : lookupA t k with
        | none => simpa only [h3] using ih c t
        | some v =>
          simp only [h3]
          match h4 : f t k v with
          | some v2 => simpa only [h4] using ih c _
          | none =>
            simp only [h4]
            exact logExt_trans (logExt_log c _ _) (ih _ _)

theorem logExt_reqCheck (c : Config) (m : List (String × Val)) :
    LogExt c (c.reqCheck m).1 := by
  induction m generalizing c with
  | nil => exact logExt_rfl c
  | cons kv t ih =>
    unfold Config.reqCheck
    match h1 : lookupA c.OPTS kv.1 with
    | none => simpa only [h1] using ih c
    | some d =>
      simp only [h1]
      by_cases h2 : d.req && falsy kv.2
      · rw [if_pos h2]
        exact logExt_trans (logExt_log c _ _) (ih _)
      · rw [if_neg h2]
        exact ih c

/-! Tracking a single option's value through the pipeline stages. -/

theorem parseOpts_lookup_known (c : Config) (raw : List (String × String))
    (name v : String) (d : OptDesc) (pv : Val)
    (hr : lookupA raw name = some v)
    (ho : lookupA c.OPTS name = some d)
    (hp : parsedVal d name v = some pv) :
    lookupA (c.parseOpts raw).2 name = some pv := by
  induction raw generalizing c with
  | nil => simp at hr
  | cons kv t ih =>
    obtain ⟨k, w⟩ := kv
    unfold Config.parseOpts
    by_cases hk : k = name
    · subst hk
      simp at hr
      subst hr
      simp only [ho, hp]
      simp
    · simp [hk] at hr
      match h1 : lookupA c.OPTS k with
      | none =>
        simp only [h1]
        exact ih _ hr (by simpa using ho)
      | some d' =>
        simp only [h1]
        match h2 : parsedVal d' k w with
        | some pv' =>
          simp only [h2]
          simp only [lookupA_cons, if_neg hk]
          exact ih _ hr ho
        | none =>
          simp only [h2]
          exact ih _ hr (by simpa using ho)

theorem parseOpts_lookup_unknown (c : Config) (raw : List (String × String)) (name : String)
    (ho : lookupA c.OPTS name = none) :
    lookupA (c.parseOpts raw).2 name = none := by
  induction raw generalizing c with
  | nil => rfl
  | cons kv t ih =>
    obtain ⟨k, w⟩ := kv
    unfold Config.parseOpts
    match h1 : lookupA c.OPTS k with
    | none =>
      simp only [h1]
      exact ih _ (by simpa using ho)
    | some d' =>
      simp only [h1]
      match h2 : parsedVal d' k w with
      | some pv' =>
        simp only [h2]
        have hk : ¬ k = name := by
          intro hh
          rw [hh, ho] at h1
          cases h1
        simp only [lookupA_cons, if_neg hk]
        exact ih _ ho
      | none =>
        simp only [h2]
        exact ih _ (by simpa using ho)

theorem keysA_parseOpts_sublist (c : Config) (raw : List (String × String)) :
    List.Sublist (keysA (c.parseOpts raw).2) (keysA raw) := by
  induction raw generalizing c with
  | nil => unfold Config.parseOpts; simp
  | cons kv t ih =>
    obtain ⟨k, w⟩ := kv
    unfold Config.parseOpts
    match h1 : lookupA c.OPTS k with
    | none =>
      simp only [h1, keysA_cons]
      exact (ih _).trans (List.sublist_cons_self _ _)
    | some d' =>
      simp only [h1]
      match h2 : parsedVal d' k w with
      | some pv' =>
        simp only [h2, keysA_cons]
        exact List.Sublist.cons₂ _ (ih _)
      | none =>
        simp only [h2, keysA_cons]
        exact (ih _).trans (List.sublist_cons_self _ _)

theorem validateOpts_lookup_kept (c : Config) (m : List (String × Val))
    (name : String) (pv : Val) (d : OptDesc)
    (hm : lookupA m name = some pv)
    (ho : lookupA c.OPTS name = some d)
    (hv : validOk d pv = true) :
    lookupA (c.validateOpts m).2 name = some pv := by
  induction m generalizing c with
  | nil => simp at hm
  | cons kv t ih =>
    obtain ⟨k, w⟩ := kv
    unfold Config.validateOpts
    by_cases hk : k = name
    · subst hk
      simp at hm
      subst hm
      simp only [ho]
      unfold validOk at hv
      match h2 : d.valid with
      | none => simp
      | some f =>
        rw [h2] at hv
        simp only [h2, if_pos hv]
        simp
    · simp [hk] at hm
      match h1 : lookupA c.OPTS k with
      | none =>
        simp only [h1, lookupA_cons, if_neg hk]
        exact ih _ hm ho
      | some d' =>
        simp only [h1]
        match h2 : d'.valid with
        | none =>
          simp only [h2, lookupA_cons, if_neg hk]
          exact ih _ hm ho
        | some f =>
          simp only [h2]
          by_cases h3 : f w
          · simp only [if_pos h3, lookupA_cons, if_neg hk]
            exact ih _ hm ho
          · simp only [if_neg h3]
            exact ih _ hm (by simpa using ho)

theorem validateOpts_lookup_none (c : Config) (m : List (String × Val)) (name : String)
    (hm : lookupA m name = none) :
    lookupA (c.validateOpts m).2 name = none := by
  induction m generalizing c with
  | nil => rfl
  | cons kv t ih =>
    obtain ⟨k, w⟩ := kv
    have hk : ¬ k = name := by
      intro hh
      rw [hh] at hm
      simp at hm
    simp [hk] at hm
    unfold Config.validateOpts
    match h1 : lookupA c.OPTS k with
    | none =>
      simp only [h1, lookupA_cons, if_neg hk]
      exact ih _ hm
    | some d' =>
      simp only [h1]
      match h2 : d'.valid with
      | none =>
        simp only [h2, lookupA_cons, if_neg hk]
        exact ih _ hm
      | some f =>
        simp only [h2]
        by_cases h3 : f w
        · simp only [if_pos h3, lookupA_cons, if_neg hk]
          exact ih _ hm
        · simp only [if_neg h3]
          exact ih _ hm

theorem keysA_validateOpts_sublist (c : Config) (m : List (String × Val)) :
    List.Sublist (keysA (c.validateOpts m).2) (keysA m) := by
  induction m generalizing c with
  | nil => unfold Config.validateOpts; simp
  | cons kv t ih =>
    obtain ⟨k, w⟩ := kv
    unfold Config.validateOpts
    match h1 : lookupA c.OPTS k with
    | none =>
      simp only [h1, keysA_cons]
      exact List.Sublist.cons₂ _ (ih _)
    | some d' =>
      simp only [h1]
      match h2 : d'.valid with
      | none =>
        simp only [h2, keysA_cons]
        exact List.Sublist.cons₂ _ (ih _)
      | some f =>
        simp only [h2]
        by_cases h3 : f w
        · simp only [if_pos h3, keysA_cons]
          exact List.Sublist.cons₂ _ (ih _)
        · simp only [if_neg h3, keysA_cons]
          exact (ih _).trans (List.sublist_cons_self _ _)

theorem lookupA_mergeInto_of_not_mem (t l : List (String × Val)) (name : String)
    (h : name ∉ keysA l) :
    lookupA (mergeInto t l) name = lookupA t name := by
  induction l generalizing t with
  | nil => rfl
  | cons kv r ih =>
    obtain ⟨k, w⟩ := kv
    rw [keysA_cons, List.mem_cons] at h
    push_neg at h
    unfold mergeInto at ih ⊢
    simp only [List.foldl_cons]
    rw [ih _ h.2, lookupA_setA_ne _ _ _ _ h.1]

theorem lookupA_mergeInto_of_lookup (t l : List (String × Val)) (name : String) (pv : Val)
    (h : lookupA l name = some pv) (hnd : (keysA l).Nodup) :
    lookupA (mergeInto t l) name = some pv := by
  induction l generalizing t with
  | nil => simp at h
  | cons kv r ih =>
    obtain ⟨k, w⟩ := kv
    rw [keysA_cons, List.nodup_cons] at hnd
    unfold mergeInto
    simp only [List.foldl_cons]
    by_cases hk : k = name
    · subst hk
      simp at h
      subst h
      rw [show List.foldl (fun t kv => setA t kv.1 kv.2) (setA t k w) r =
        mergeInto (setA t k w) r from rfl]
      rw [lookupA_mergeInto_of_not_mem _ _ _ hnd.1, lookupA_setA_self]
    · simp [hk] at h
      exact ih (setA t k w) h hnd.2

theorem mem_keysA_mergeInto (t l : List (String × Val)) (a : String)
    (h : a ∈ keysA (mergeInto t l)) : a ∈ keysA t ∨ a ∈ keysA l := by
  induction l generalizing t with
  | nil => exact Or.inl h
  | cons kv r ih =>
    obtain ⟨k, w⟩ := kv
    unfold mergeInto at h ih
    simp only [List.foldl_cons] at h
    rcases ih _ h with hmem | hmem
    · by_cases hak : k ∈ keysA t
      · rw [keysA_setA_of_mem _ _ _ hak] at hmem
        exact Or.inl hmem
      · rw [keysA_setA_of_not_mem _ _ _ hak] at hmem
        rcases List.mem_append.mp hmem with hmem | hmem
        · exact Or.inl hmem
        · simp at hmem
          subst hmem
          exact Or.inr (by simp)
    · exact Or.inr (List.mem_cons_of_mem _ hmem)

theorem nodup_keysA_mergeInto (t l : List (String × Val))
    (h : (keysA t).Nodup) : (keysA (mergeInto t l)).Nodup := by
  induction l generalizing t with
  | nil => exact h
  | cons kv r ih =>
    obtain ⟨k, w⟩ := kv
    unfold mergeInto at ih ⊢
    simp only [List.foldl_cons]
    exact ih _ (nodup_keysA_setA _ _ _ h)

theorem postRec_lookup_not_mem_ks (c : Config) (t : List (String × Val))
    (ks : List String) (name : String) (h : name ∉ ks) :
    lookupA (c.postRec t ks).2 name = lookupA t name := by
  induction ks generalizing c t with
  | nil => rfl
  | cons k kt ih =>
    rw [List.mem_cons] at h
    push_neg at h
    unfold Config.postRec
    match h1 : lookupA c.OPTS k with
    | none => exact ih _ _ h.2
    | some d =>
      simp only [h1]
      match h2 : d.post with
      | none => exact ih _ _ h.2
      | some f =>
        simp only [h2]
        match h3 : lookupA t k with
        | none => exact ih _ _ h.2
        | some v =>
          simp only [h3]
          match h4 : f t k v with
          | some v2 =>
            simp only [h4]
            rw [ih _ _ h.2, lookupA_setA_ne _ _ _ _ h.1]
          | none =>
            simp only [h4]
            rw [ih _ _ h.2, lookupA_eraseA_ne _ _ _ h.1]

theorem postRec_lookup_none (c : Config) (t : List (String × Val))
    (ks : List String) (name : String) (h : lookupA t name = none) :
    lookupA (c.postRec t ks).2 name = none := by
  induction ks generalizing c t with
  | nil => exact h
  | cons k kt ih =>
    unfold Config.postRec
    by_cases hk : k = name
    · subst hk
      match h1 : lookupA c.OPTS k with
      | none => exact ih _ _ h
      | some d =>
        simp only [h1]
        match h2 : d.post with
        | none => exact ih _ _ h
        | some f =>
          simp only [h2, h]
          exact ih _ _ h
    · match h1 : lookupA c.OPTS k with
      | none => exact ih _ _ h
      | some d =>
        simp only [h1]
        match h2 : d.post with
        | none => exact ih _ _ h
        | some f =>
          simp only [h2]
          match h3 : lookupA t k with
          | none => exact ih _ _ h
          | some v =>
            simp only [h3]
            match h4 : f t k v with
            | some v2 =>
              simp only [h4]
              exact ih _ _ (by rw [lookupA_setA_ne _ _ _ _ (fun hh => hk hh.symm)]; exact h)
            | none =>
              simp only [h4]
              exact ih _ _ (by rw [lookupA_eraseA_ne _ _ _ (fun hh => hk hh.symm)]; exact h)

theorem postRec_lookup_nopost (c : Config) (t : List (String × Val))
    (ks : List String) (name : String) (d : OptDesc)
    (ho : lookupA c.OPTS name = some d) (hd : d.post = none) :
    lookupA (c.postRec t ks).2 name = lookupA t name := by
  induction ks generalizing c t with
  | nil => rfl
  | cons k kt ih =>
    unfold Config.postRec
    by_cases hk : k = name
    · subst hk
      simp only [ho, hd]
      exact ih _ _ ho
    · match h1 : lookupA c.OPTS k with
      | none => exact ih _ _ ho
      | some d' =>
        simp only [h1]
        match h2 : d'.post with
        | none => exact ih _ _ ho
        | some f =>
          simp only [h2]
          match h3 : lookupA t k with
          | none => exact ih _ _ ho
          | some v =>
            simp only [h3]
            match h4 : f t k v with
            | some v2 =>
              simp only [h4]
              rw [ih _ _ (by simpa using ho), lookupA_setA_ne _ _ _ _ (fun hh => hk hh.symm)]
            | none =>
              simp only [h4]
              rw [ih _ _ (by simpa using ho), lookupA_eraseA_ne _ _ _ (fun hh => hk hh.symm)]

theorem postRec_lookup_valueHook (c : Config) (t : List (String × Val))
    (ks : List String) (name : String) (d : OptDesc)
    (f : List (String × Val) → String → Val → Option Val) (g : Val → Option Val) (pv : Val)
    (ho : lookupA c.OPTS name = some d) (hd : d.post = some f)
    (hg : ∀ tt n x, f tt n x = g x)
    (ht : lookupA t name = some pv)
    (hnd : (keysA t).Nodup)
    (hks : name ∈ ks) (hksnd : ks.Nodup) :
    lookupA (c.postRec t ks).2 name = g pv := by
  induction ks generalizing c t pv with
  | nil => simp at hks
  | cons k kt ih =>
    rw [List.nodup_cons] at hksnd
    unfold Config.postRec
    by_cases hk : k = name
    · subst hk
      simp only [ho, hd, ht, hg]
      match h4 : g pv with
      | some v2 =>
        rw [postRec_lookup_not_mem_ks _ _ _ _ hksnd.1, lookupA_setA_self]
      | none =>
        rw [postRec_lookup_not_mem_ks _ _ _ _ hksnd.1, lookupA_eraseA_self _ _ hnd]
    · have hks' : name ∈ kt := by
        rcases List.mem_cons.mp hks with hh | hh
        · exact absurd hh.symm hk
        · exact hh
      match h1 : lookupA c.OPTS k with
      | none => exact ih _ _ _ ho ht hnd hks' hksnd.2
      | some d' =>
        simp only [h1]
        match h2 : d'.post with
        | none => exact ih _ _ _ ho ht hnd hks' hksnd.2
        | some f' =>
          simp only [h2]
          match h3 : lookupA t k with
          | none => exact ih _ _ _ ho ht hnd hks' hksnd.2
          | some v =>
            simp only [h3]
            match h4 : f' t k v with
            | some v2 =>
              simp only [h4]
              refine ih _ _ _ (by simpa using ho) ?_ (nodup_keysA_setA _ _ _ hnd) hks' hksnd.2
              rw [lookupA_setA_ne _ _ _ _ (fun hh => hk hh.symm)]
              exact ht
            | none =>
              simp only [h4]
              refine ih _ _ _ (by simpa using ho) ?_ (nodup_keysA_eraseA _ _ hnd) hks' hksnd.2
              rw [lookupA_eraseA_ne _ _ _ (fun hh => hk hh.symm)]
              exact ht

theorem lookupA_get_default (OPTS : List (String × OptDesc)) (name : String) :
    lookupA (get_default OPTS) name = (lookupA OPTS name).map OptDesc.default := by
  induction OPTS with
  | nil => rfl
  | cons kv t ih =>
    obtain ⟨k, d⟩ := kv
    by_cases hk : k = name
    · subst hk; simp [get_default]
    · simp [get_default, hk] at ih ⊢
      exact ih

theorem keysA_get_default (OPTS : List (String × OptDesc)) :
    keysA (get_default OPTS) = keysA OPTS := by
  induction OPTS with
  | nil => rfl
  | cons kv t ih =>
    obtain ⟨k, d⟩ := kv
    simp only [get_default, keysA, List.map_cons] at ih ⊢
    rw [ih]

theorem mem_of_lookupA {β : Type} (l : List (String × β)) (k : String) (v : β)
    (h : lookupA l k = some v) : (k, v) ∈ l := by
  induction l with
  | nil => simp at h
  | cons hd t ih =>
    obtain ⟨k', v'⟩ := hd
    by_cases hk : k' = k
    · subst hk
      simp at h
      subst h
      exact List.mem_cons_self _ _
    · simp [hk] at h
      exact List.mem_cons_of_mem _ (ih h)

/-! Well-formedness of the reader's output. -/

theorem readStep_none (lines : List String) :
    lines.foldl readStep none = none := by
  induction lines with
  | nil => rfl
  | cons l ls ih => simpa [readStep] using ih

theorem readConf_items_nodup_aux (lines : List String)
    (st : List (String × List (String × String)) × String)
    (hst : ∀ sec ∈ st.1, (keysA sec.2).Nodup)
    (res : List (String × List (String × String)) × String)
    (h : lines.foldl readStep (some st) = some res) :
    ∀ sec ∈ res.1, (keysA sec.2).Nodup := by
  induction lines generalizing st with
  | nil =>
    simp only [List.foldl_nil, Option.some_inj] at h
    subst h
    exact hst
  | cons l ls ih =>
    simp only [List.foldl_cons] at h
    obtain ⟨secs, cur⟩ := st
    match hstep : readStep (some (secs, cur)) l with
    | none =>
      rw [hstep, readStep_none] at h
      cases h
    | some st' =>
      rw [hstep] at h
      refine ih st' ?_ h
      simp only [readStep] at hstep
      by_cases h1 : pyStrip l = ""
      · rw [if_pos h1] at hstep
        cases hstep
        exact hst
      · rw [if_neg h1] at hstep
        by_cases h2 : pyStartsWith (pyStrip l) "#" || pyStartsWith (pyStrip l) ";"
        · rw [if_pos h2] at hstep
          cases hstep
          exact hst
        · rw [if_neg h2] at hstep
          by_cases h3 : pyStartsWith (pyStrip l) "[" && pyEndsWith (pyStrip l) "]"
          · rw [if_pos h3] at hstep
            by_cases h4 : (lookupA secs (String.mk ((pyStrip l).data.drop 1).dropLast)).isSome
            · rw [if_pos h4] at hstep
              cases hstep
              exact hst
            · rw [if_neg h4] at hstep
              cases hstep
              intro sec hsec
              rcases List.mem_append.mp hsec with hsec | hsec
              · exact hst sec hsec
              · simp at hsec
                subst hsec
                simp
          · rw [if_neg h3] at hstep
            match h5 : splitAssign (pyStrip l) with
            | some kv =>
              rw [h5] at hstep
              cases hstep
              intro sec hsec
              rcases List.mem_map.mp hsec with ⟨sec0, hsec0, heq⟩
              by_cases h6 : sec0.1 = cur
              · rw [if_pos h6] at heq
                subst heq
                exact nodup_keysA_setA _ _ _ (hst sec0 hsec0)
              · rw [if_neg h6] at heq
                subst heq
                exact hst sec0 hsec0
            | none =>
              rw [h5] at hstep
              cases hstep

theorem readConf_items_nodup (lines : List String)
    (secs : List (String × List (String × String)))
    (h : readConf lines = some secs) :
    ∀ sec ∈ secs, (keysA sec.2).Nodup := by
  unfold readConf at h
  match hf : lines.foldl readStep (some ([(DUMMY, [])], DUMMY)) with
  | none => rw [hf] at h; cases h
  | some res =>
    rw [hf] at h
    simp only [Option.map] at h
    cases h
    exact readConf_items_nodup_aux lines _ (by simp) res hf

/-! Projections of `LogExt`, and membership of the log queue. -/

theorem logExt_OPTS {c c' : Config} (h : LogExt c c') : c'.OPTS = c.OPTS := h.1

theorem logExt_opts {c c' : Config} (h : LogExt c c') : c'.opts = c.opts := h.2.2.1

theorem logExt_logging {c c' : Config} (h : LogExt c c') : c'.logging = c.logging :=
  h.2.2.2.2.1

theorem logExt_log_mem {c c' : Config} (x : String × String) (h : LogExt c c')
    (hx : x ∈ c.log_msgs) : x ∈ c'.log_msgs := by
  obtain ⟨-, -, -, -, -, ext, hext⟩ := h
  rw [hext]
  exact List.mem_append_left _ hx

/-! Tracking one option through a whole `__update`. -/

theorem update_lookup_unknown (c : Config) (name : String)
    (ho : lookupA c.OPTS name = none) :
    lookupA (c.update).opts name = none := by
  simp only [Config.update]
  set c0 : Config := { c with opts := get_default c.OPTS } with hc0
  have e1 := logExt_readOpts c0
  have e2 := logExt_parseOpts (c0.readOpts).1 (c0.readOpts).2
  have hO2 : ((c0.readOpts).1.parseOpts (c0.readOpts).2).1.OPTS = c.OPTS := by
    rw [logExt_OPTS e2, logExt_OPTS e1]
  have hp : lookupA ((c0.readOpts).1.parseOpts (c0.readOpts).2).2 name = none :=
    parseOpts_lookup_unknown _ _ _ (by rw [logExt_OPTS e1]; exact ho)
  have hv : lookupA (((c0.readOpts).1.parseOpts (c0.readOpts).2).1.validateOpts
      ((c0.readOpts).1.parseOpts (c0.readOpts).2).2).2 name = none :=
    validateOpts_lookup_none _ _ _ hp
  have e3 := logExt_validateOpts ((c0.readOpts).1.parseOpts (c0.readOpts).2).1
    ((c0.readOpts).1.parseOpts (c0.readOpts).2).2
  have hopts3 : (((c0.readOpts).1.parseOpts (c0.readOpts).2).1.validateOpts
      ((c0.readOpts).1.parseOpts (c0.readOpts).2).2).1.opts = get_default c.OPTS := by
    rw [logExt_opts e3, logExt_opts e2, logExt_opts e1]
  have hmerged : lookupA (mergeInto (((c0.readOpts).1.parseOpts (c0.readOpts).2).1.validateOpts
      ((c0.readOpts).1.parseOpts (c0.readOpts).2).2).1.opts
      (((c0.readOpts).1.parseOpts (c0.readOpts).2).1.validateOpts
      ((c0.readOpts).1.parseOpts (c0.readOpts).2).2).2) name = none := by
    rw [lookupA_mergeInto_of_not_mem _ _ _ (not_mem_keysA_of_lookupA_none _ _ hv), hopts3,
      lookupA_get_default, ho]
    rfl
  simp only [Config.postOpts]
  exact postRec_lookup_none _ _ _ _ hmerged

theorem update_lookup_survivor (c : Config) (name v : String) (d : OptDesc) (pv : Val)
    (secs : List (String × List (String × String))) (items : List (String × String))
    (ho : lookupA c.OPTS name = some d)
    (hread : readConf c.conf_file = some secs)
    (hitems : lookupA secs DUMMY = some items)
    (hv : lookupA items name = some v)
    (hp : parsedVal d name v = some pv)
    (hvalid : validOk d pv = true)
    (hnodup : (keysA c.OPTS).Nodup) :
    (d.post = none → lookupA (c.update).opts name = some pv) ∧
    (∀ (f : List (String × Val) → String → Val → Option Val) (g : Val → Option Val),
      d.post = some f → (∀ tt n x, f tt n x = g x) →
      lookupA (c.update).opts name = g pv) := by
  simp only [Config.update]
  set c0 : Config := { c with opts := get_default c.OPTS } with hc0
  have e1 := logExt_readOpts c0
  have hraw : (c0.readOpts).2 = items := by
    simp only [Config.readOpts, hc0, hread, hitems]
    rfl
  have e2 := logExt_parseOpts (c0.readOpts).1 (c0.readOpts).2
  have hO1 : (c0.readOpts).1.OPTS = c.OPTS := by rw [logExt_OPTS e1, hc0]
  have hpl : lookupA ((c0.readOpts).1.parseOpts (c0.readOpts).2).2 name = some pv := by
    refine parseOpts_lookup_known _ _ _ v d pv ?_ (by rw [hO1]; exact ho) hp
    rw [hraw]; exact hv
  have hO2 : ((c0.readOpts).1.parseOpts (c0.readOpts).2).1.OPTS = c.OPTS := by
    rw [logExt_OPTS e2, hO1]
  have hvl : lookupA (((c0.readOpts).1.parseOpts (c0.readOpts).2).1.validateOpts
      ((c0.readOpts).1.parseOpts (c0.readOpts).2).2).2 name = some pv :=
    validateOpts_lookup_kept _ _ _ pv d hpl (by rw [hO2]; exact ho) hvalid
  have e3 := logExt_validateOpts ((c0.readOpts).1.parseOpts (c0.readOpts).2).1
    ((c0.readOpts).1.parseOpts (c0.readOpts).2).2
  have hopts3 : (((c0.readOpts).1.parseOpts (c0.readOpts).2).1.validateOpts
      ((c0.readOpts).1.parseOpts (c0.readOpts).2).2).1.opts = get_default c.OPTS := by
    rw [logExt_opts e3, logExt_opts e2, logExt_opts e1]
  have hO3 : (((c0.readOpts).1.parseOpts (c0.readOpts).2).1.validateOpts
      ((c0.readOpts).1.parseOpts (c0.readOpts).2).2).1.OPTS = c.OPTS := by
    rw [logExt_OPTS e3, hO2]
  have hndvalid : (keysA (((c0.readOpts).1.parseOpts (c0.readOpts).2).1.validateOpts
      ((c0.readOpts).1.parseOpts (c0.readOpts).2).2).2).Nodup := by
    have hnditems : (keysA items).Nodup := by
      refine readConf_items_nodup _ _ hread (DUMMY, items) ?_
      exact mem_of_lookupA _ _ _ hitems
    have hnditems2 : (keysA (c0.readOpts).2).Nodup := by rw [hraw]; exact hnditems
    have h1 := keysA_parseOpts_sublist (c0.readOpts).1 (c0.readOpts).2
    have h2 := keysA_validateOpts_sublist ((c0.readOpts).1.parseOpts (c0.readOpts).2).1
      ((c0.readOpts).1.parseOpts (c0.readOpts).2).2
    exact (h2.trans h1).nodup hnditems2
  have hmerged : lookupA (mergeInto (((c0.readOpts).1.parseOpts (c0.readOpts).2).1.validateOpts
      ((c0.readOpts).1.parseOpts (c0.readOpts).2).2).1.opts
      (((c0.readOpts).1.parseOpts (c0.readOpts).2).1.validateOpts
      ((c0.readOpts).1.parseOpts (c0.readOpts).2).2).2) name = some pv :=
    lookupA_mergeInto_of_lookup _ _ _ _ hvl hndvalid
  have hmergednd : (keysA (mergeInto (((c0.readOpts).1.parseOpts (c0.readOpts).2).1.validateOpts
      ((c0.readOpts).1.parseOpts (c0.readOpts).2).2).1.opts
      (((c0.readOpts).1.parseOpts (c0.readOpts).2).1.validateOpts
      ((c0.readOpts).1.parseOpts (c0.readOpts).2).2).2)).Nodup := by
    refine nodup_keysA_mergeInto _ _ ?_
    rw [hopts3, keysA_get_default]
    exact hnodup
  constructor
  · intro hpost
    simp only [Config.postOpts]
    exact (postRec_lookup_nopost _ _ _ _ d (by rw [hO3]; exact ho) hpost).trans hmerged
  · intro f g hpost hg
    simp only [Config.postOpts]
    refine postRec_lookup_valueHook _ _ _ _ d f g pv (by rw [hO3]; exact ho) hpost hg
      hmerged hmergednd ?_ hmergednd
    exact mem_keysA_of_lookupA _ _ _ hmerged

/-! Facts about `__update` and `reload` as wholes. -/

theorem update_preserves (c : Config) :
    (c.update).OPTS = c.OPTS ∧ (c.update).NS = c.NS ∧
    (c.update).conf_file = c.conf_file ∧ (c.update).logging = c.logging := by
  simp only [Config.update, Config.postOpts]
  set c0 : Config := { c with opts := get_default c.OPTS } with hc0
  have e1 := logExt_readOpts c0
  have e2 := logExt_parseOpts (c0.readOpts).1 (c0.readOpts).2
  have e3 := logExt_validateOpts ((c0.readOpts).1.parseOpts (c0.readOpts).2).1
    ((c0.readOpts).1.parseOpts (c0.readOpts).2).2
  set c4 : Config := { (((c0.readOpts).1.parseOpts (c0.readOpts).2).1.validateOpts
    ((c0.readOpts).1.parseOpts (c0.readOpts).2).2).1 with
    opts := mergeInto (((c0.readOpts).1.parseOpts (c0.readOpts).2).1.validateOpts
      ((c0.readOpts).1.parseOpts (c0.readOpts).2).2).1.opts
      (((c0.readOpts).1.parseOpts (c0.readOpts).2).1.validateOpts
      ((c0.readOpts).1.parseOpts (c0.readOpts).2).2).2 } with hc4
  have e5 := logExt_postRec c4 c4.opts (keysA c4.opts)
  refine ⟨?_, ?_, ?_, ?_⟩
  · show (c4.postRec c4.opts (keysA c4.opts)).1.OPTS = c.OPTS
    rw [logExt_OPTS e5, hc4]
    show (((c0.readOpts).1.parseOpts (c0.readOpts).2).1.validateOpts
      ((c0.readOpts).1.parseOpts (c0.readOpts).2).2).1.OPTS = c.OPTS
    rw [logExt_OPTS e3, logExt_OPTS e2, logExt_OPTS e1, hc0]
  · show (c4.postRec c4.opts (keysA c4.opts)).1.NS = c.NS
    rw [e5.2.1, hc4]
    show (((c0.readOpts).1.parseOpts (c0.readOpts).2).1.validateOpts
      ((c0.readOpts).1.parseOpts (c0.readOpts).2).2).1.NS = c.NS
    rw [e3.2.1, e2.2.1, e1.2.1, hc0]
  · show (c4.postRec c4.opts (keysA c4.opts)).1.conf_file = c.conf_file
    rw [e5.2.2.2.1, hc4]
    show (((c0.readOpts).1.parseOpts (c0.readOpts).2).1.validateOpts
      ((c0.readOpts).1.parseOpts (c0.readOpts).2).2).1.conf_file = c.conf_file
    rw [e3.2.2.2.1, e2.2.2.2.1, e1.2.2.2.1, hc0]
  · show (c4.postRec c4.opts (keysA c4.opts)).1.logging = c.logging
    rw [logExt_logging e5, hc4]
    show (((c0.readOpts).1.parseOpts (c0.readOpts).2).1.validateOpts
      ((c0.readOpts).1.parseOpts (c0.readOpts).2).2).1.logging = c.logging
    rw [logExt_logging e3, logExt_logging e2, logExt_logging e1, hc0]

theorem update_log_mem (c : Config) (x : String × String)
    (hx : x ∈ ((({ c with opts := get_default c.OPTS } : Config).readOpts).1.parseOpts
      (({ c with opts := get_default c.OPTS } : Config).readOpts).2).1.log_msgs) :
    x ∈ (c.update).log_msgs := by
  simp only [Config.update, Config.postOpts]
  set c0 : Config := { c with opts := get_default c.OPTS } with hc0
  have e3 := logExt_validateOpts ((c0.readOpts).1.parseOpts (c0.readOpts).2).1
    ((c0.readOpts).1.parseOpts (c0.readOpts).2).2
  set c4 : Config := { (((c0.readOpts).1.parseOpts (c0.readOpts).2).1.validateOpts
    ((c0.readOpts).1.parseOpts (c0.readOpts).2).2).1 with
    opts := mergeInto (((c0.readOpts).1.parseOpts (c0.readOpts).2).1.validateOpts
      ((c0.readOpts).1.parseOpts (c0.readOpts).2).2).1.opts
      (((c0.readOpts).1.parseOpts (c0.readOpts).2).1.validateOpts
      ((c0.readOpts).1.parseOpts (c0.readOpts).2).2).2 } with hc4
  have e5 := logExt_postRec c4 c4.opts (keysA c4.opts)
  show x ∈ (c4.postRec c4.opts (keysA c4.opts)).1.log_msgs
  refine logExt_log_mem x e5 ?_
  rw [hc4]
  show x ∈ (((c0.readOpts).1.parseOpts (c0.readOpts).2).1.validateOpts
    ((c0.readOpts).1.parseOpts (c0.readOpts).2).2).1.log_msgs
  exact logExt_log_mem x e3 hx

theorem reqCheck_zero (c : Config) (m : List (String × Val))
    (h : ∀ kv ∈ m, ∀ d, lookupA c.OPTS kv.1 = some d → (d.req && falsy kv.2) = false) :
    c.reqCheck m = (c, 0) := by
  induction m generalizing c with
  | nil => rfl
  | cons kv t ih =>
    unfold Config.reqCheck
    match h1 : lookupA c.OPTS kv.1 with
    | none => exact ih _ (fun kv2 hm => h kv2 (List.mem_cons_of_mem _ hm))
    | some d =>
      have hfalse := h kv (List.mem_cons_self _ _) d h1
      simp only [hfalse, Bool.false_eq_true, if_false]
      exact ih _ (fun kv2 hm => h kv2 (List.mem_cons_of_mem _ hm))

theorem filter_pyStrGe (l : List (String × String)) :
    l.filter (fun x => pyStrGeInt x.1 WARNING_LEVEL) = l := by
  induction l with
  | nil => rfl
  | cons h t ih => simp [pyStrGeInt, ih]

theorem parseOpts_unknown_logged (c : Config) (raw : List (String × String))
    (k v : String) (hmem : (k, v) ∈ raw) (ho : lookupA c.OPTS k = none)
    (hl : c.logging = true) :
    ("info", "Unknown config option \"" ++ k ++ "\"") ∈ (c.parseOpts raw).1.log_msgs := by
  induction raw generalizing c with
  | nil => simp at hmem
  | cons kv t ih =>
    obtain ⟨k0, w⟩ := kv
    rcases List.mem_cons.mp hmem with hm | hm
    · have hk : k0 = k := (Prod.mk.injEq _ _ _ _ ▸ hm.symm).1
      subst hk
      unfold Config.parseOpts
      rw [ho]
      refine logExt_log_mem _ (logExt_parseOpts _ _) ?_
      rw [log_log_msgs, if_pos hl]
      exact List.mem_append_right _ (by simp)
    · unfold Config.parseOpts
      match h1 : lookupA c.OPTS k0 with
      | none =>
        simp only []
        exact ih _ hm (by simpa using ho) (by simpa using hl)
      | some d =>
        simp only []
        match h2 : parsedVal d k0 w with
        | some pv =>
          simp only []
          exact ih _ hm ho hl
        | none =>
          simp only []
          exact ih _ hm (by simpa using ho) (by simpa using hl)

theorem reload_opts_eq (c : Config) (log : Bool) :
    (c.reload log).1.opts = (({ c with logging := log } : Config).update).opts := by
  simp only [Config.reload]
  have hopts := logExt_opts (logExt_reqCheck (({ c with logging := log } : Config).update)
    (({ c with logging := log } : Config).update).opts)
  split
  · exact hopts
  · split
    · exact hopts
    · exact hopts

theorem reload_log_mem (c : Config) (log : Bool) (x : String × String)
    (hx : x ∈ (({ c with logging := log } : Config).update).log_msgs) :
    x ∈ (c.reload log).1.log_msgs := by
  simp only [Config.reload]
  have hmem := logExt_log_mem x (logExt_reqCheck (({ c with logging := log } : Config).update)
    (({ c with logging := log } : Config).update).opts) hx
  split
  · exact hmem
  · split
    · exact hmem
    · exact hmem

theorem reload_status_cases (c : Config) (log : Bool) :
    (c.reload log).2 = Config.FAIL ∨ (c.reload log).2 = Config.ERRORS ∨
      (c.reload log).2 = Config.SUCCESS := by
  simp only [Config.reload]
  split
  · exact Or.inl rfl
  · split
    · exact Or.inr (Or.inl rfl)
    · exact Or.inr (Or.inr rfl)

theorem reload_status_ERRORS (c : Config) (log : Bool)
    (hzero : (({ c with logging := log } : Config).update).reqCheck
      (({ c with logging := log } : Config).update).opts =
      ((({ c with logging := log } : Config).update), 0))
    (hne : (({ c with logging := log } : Config).update).log_msgs ≠ []) :
    (c.reload log).2 = Config.ERRORS := by
  simp only [Config.reload, hzero]
  rw [if_neg (by simp)]
  rw [if_pos]
  rw [filter_pyStrGe]
  show 0 < (({ c with logging := log } : Config).update).log_msgs.length
  exact List.length_pos.mpr hne


theorem reload_status_ne_SUCCESS (c : Config) (log : Bool)
    (hne : (({ c with logging := log } : Config).update).log_msgs ≠ []) :
    (c.reload log).2 ≠ Config.SUCCESS := by
  obtain ⟨-, -, -, -, -, ext, hextmsg⟩ :=
    logExt_reqCheck (({ c with logging := log } : Config).update)
      (({ c with logging := log } : Config).update).opts
  simp only [Config.reload]
  split
  · intro h
    simp [Config.FAIL, Config.SUCCESS] at h
  · split
    · intro h
      simp [Config.ERRORS, Config.SUCCESS] at h
    · rename_i hlen
      exfalso
      rw [filter_pyStrGe] at hlen
      apply hlen
      show 0 < (Config.reqCheck (({ c with logging := log } : Config).update)
        (({ c with logging := log } : Config).update).opts).1.log_msgs.length
      rw [hextmsg, List.length_append]
      have hpos : 0 < (({ c with logging := log } : Config).update).log_msgs.length :=
        List.length_pos.mpr hne
      omega

theorem parseOpts_parse_error_logged (c : Config) (raw : List (String × String))
    (k v : String) (d : OptDesc)
    (hmem : (k, v) ∈ raw) (ho : lookupA c.OPTS k = some d)
    (hp : parsedVal d k v = none) (hl : c.logging = true) :
    ("error", "Error parsing \"" ++ k ++ "\"; using default=" ++
      showVal ((lookupA c.opts k).getD Val.vNone)) ∈ (c.parseOpts raw).1.log_msgs := by
  induction raw generalizing c with
  | nil => simp at hmem
  | cons kv t ih =>
    obtain ⟨k0, w⟩ := kv
    rcases List.mem_cons.mp hmem with hm | hm
    · have hk : k0 = k := (Prod.mk.injEq _ _ _ _ ▸ hm.symm).1
      have hw : w = v := (Prod.mk.injEq _ _ _ _ ▸ hm.symm).2
      subst hk
      subst hw
      unfold Config.parseOpts
      simp only [ho, hp]
      refine logExt_log_mem _ (logExt_parseOpts _ _) ?_
      rw [log_log_msgs, if_pos hl]
      exact List.mem_append_right _ (by simp)
    · unfold Config.parseOpts
      match h1 : lookupA c.OPTS k0 with
      | none =>
        simp only []
        exact ih _ hm (by simpa using ho) (by simpa using hl)
      | some d0 =>
        simp only []
        match h2 : parsedVal d0 k0 w with
        | some pv =>
          simp only []
          exact ih _ hm ho hl
        | none =>
          simp only []
          exact ih _ hm (by simpa using ho) (by simpa using hl)

theorem validateOpts_invalid_logged (c : Config) (m : List (String × Val))
    (k : String) (pv : Val) (d : OptDesc)
    (hmem : (k, pv) ∈ m) (ho : lookupA c.OPTS k = some d)
    (hv : validOk d pv = false) (hl : c.logging = true) :
    ("error", "Invalid value for \"" ++ k ++ "\"; using default=" ++
      showVal ((lookupA c.opts k).getD Val.vNone)) ∈ (c.validateOpts m).1.log_msgs := by
  induction m generalizing c with
  | nil => simp at hmem
  | cons kv t ih =>
    obtain ⟨k0, w⟩ := kv
    rcases List.mem_cons.mp hmem with hm | hm
    · have hk : k0 = k := (Prod.mk.injEq _ _ _ _ ▸ hm.symm).1
      have hw : w = pv := (Prod.mk.injEq _ _ _ _ ▸ hm.symm).2
      subst hk
      subst hw
      unfold Config.validateOpts
      simp only [ho]
      unfold validOk at hv
      match h2 : d.valid with
      | none =>
        rw [h2] at hv
        simp at hv
      | some f =>
        rw [h2] at hv
        simp only [] at hv
        have hv2 : ¬ f w = true := by
          rw [hv]
          simp
        simp only []
        rw [if_neg hv2]
        refine logExt_log_mem _ (logExt_validateOpts _ _) ?_
        rw [log_log_msgs, if_pos hl]
        exact List.mem_append_right _ (by simp)
    · unfold Config.validateOpts
      match h1 : lookupA c.OPTS k0 with
      | none =>
        simp only []
        exact ih _ hm ho hl
      | some d0 =>
        simp only []
        match h2 : d0.valid with
        | none =>
          simp only []
          exact ih _ hm ho hl
        | some f =>
          simp only []
          by_cases h3 : f w
          · rw [if_pos h3]
            exact ih _ hm ho hl
          · rw [if_neg h3]
            exact ih _ hm (by simpa using ho) (by simpa using hl)

theorem postRec_post_error_logged (c : Config) (t : List (String × Val))
    (ks : List String) (k : String) (d : OptDesc)
    (f : List (String × Val) → String → Val → Option Val) (g : Val → Option Val) (pv : Val)
    (ho : lookupA c.OPTS k = some d) (hpost : d.post = some f)
    (hg : ∀ tt n x, f tt n x = g x)
    (ht : lookupA t k = some pv) (hgv : g pv = none)
    (hnd : (keysA t).Nodup) (hks : k ∈ ks) (hksnd : ks.Nodup)
    (hl : c.logging = true) :
    ("error", "Error running post for \"" ++ k ++ "\"; using default=" ++ showVal pv)
      ∈ (c.postRec t ks).1.log_msgs := by
  induction ks generalizing c t with
  | nil => simp at hks
  | cons k0 kt ih =>
    rw [List.nodup_cons] at hksnd
    unfold Config.postRec
    by_cases hk : k0 = k
    · subst hk
      simp only [ho, hpost, ht, hg, hgv]
      refine logExt_log_mem _ (logExt_postRec _ _ _) ?_
      rw [log_log_msgs, if_pos hl]
      exact List.mem_append_right _ (by simp)
    · have hks2 : k ∈ kt := by
        rcases List.mem_cons.mp hks with hh | hh
        · exact absurd hh.symm hk
        · exact hh
      match h1 : lookupA c.OPTS k0 with
      | none => exact ih _ _ ho ht hnd hks2 hksnd.2 hl
      | some d0 =>
        simp only []
        match h2 : d0.post with
        | none => exact ih _ _ ho ht hnd hks2 hksnd.2 hl
        | some f0 =>
          simp only []
          match h3 : lookupA t k0 with
          | none => exact ih _ _ ho ht hnd hks2 hksnd.2 hl
          | some v0 =>
            simp only []
            match h4 : f0 t k0 v0 with
            | some v2 =>
              simp only []
              refine ih _ _ (by simpa using ho) ?_ (nodup_keysA_setA _ _ _ hnd) hks2
                hksnd.2 (by simpa using hl)
              rw [lookupA_setA_ne _ _ _ _ (fun hh => hk hh.symm)]
              exact ht
            | none =>
              simp only []
              refine ih _ _ (by simpa using ho) ?_ (nodup_keysA_eraseA _ _ hnd) hks2
                hksnd.2 (by simpa using hl)
              rw [lookupA_eraseA_ne _ _ _ (fun hh => hk hh.symm)]
              exact ht

theorem update_parse_error_logged (c : Config)
    (secs : List (String × List (String × String))) (items : List (String × String))
    (k v : String) (d : OptDesc)
    (hread : readConf c.conf_file = some secs)
    (hitems : lookupA secs DUMMY = some items)
    (hmem : (k, v) ∈ items)
    (ho : lookupA c.OPTS k = some d)
    (hp : parsedVal d k v = none)
    (hl : c.logging = true) :
    ("error", "Error parsing \"" ++ k ++ "\"; using default=" ++ showVal d.default)
      ∈ (c.update).log_msgs := by
  refine update_log_mem c _ ?_
  set c0 : Config := { c with opts := get_default c.OPTS } with hc0
  have e1 := logExt_readOpts c0
  have hraw : (c0.readOpts).2 = items := by
    simp only [Config.readOpts, hc0, hread, hitems]
    rfl
  have hmsg : ("error", "Error parsing \"" ++ k ++ "\"; using default=" ++ showVal d.default)
      = (("error", "Error parsing \"" ++ k ++ "\"; using default=" ++
        showVal ((lookupA (c0.readOpts).1.opts k).getD Val.vNone)) : String × String) := by
    rw [logExt_opts e1]
    show _ = (("error", "Error parsing \"" ++ k ++ "\"; using default=" ++
      showVal ((lookupA (get_default c.OPTS) k).getD Val.vNone)) : String × String)
    rw [lookupA_get_default, ho]
    rfl
  rw [hmsg]
  refine parseOpts_parse_error_logged (c0.readOpts).1 (c0.readOpts).2 k v d ?_ ?_ hp ?_
  · rw [hraw]
    exact hmem
  · rw [logExt_OPTS e1]
    exact ho
  · rw [logExt_logging e1]
    exact hl

theorem update_valid_error_logged (c : Config)
    (secs : List (String × List (String × String))) (items : List (String × String))
    (k v : String) (d : OptDesc) (pv : Val)
    (hread : readConf c.conf_file = some secs)
    (hitems : lookupA secs DUMMY = some items)
    (hv : lookupA items k = some v)
    (ho : lookupA c.OPTS k = some d)
    (hp : parsedVal d k v = some pv)
    (hvalid : validOk d pv = false)
    (hl : c.logging = true) :
    ("error", "Invalid value for \"" ++ k ++ "\"; using default=" ++ showVal d.default)
      ∈ (c.update).log_msgs := by
  simp only [Config.update, Config.postOpts]
  set c0 : Config := { c with opts := get_default c.OPTS } with hc0
  have e1 := logExt_readOpts c0
  have e2 := logExt_parseOpts (c0.readOpts).1 (c0.readOpts).2
  have hraw : (c0.readOpts).2 = items := by
    simp only [Config.readOpts, hc0, hread, hitems]
    rfl
  have hO1 : (c0.readOpts).1.OPTS = c.OPTS := by rw [logExt_OPTS e1, hc0]
  have hpl : lookupA ((c0.readOpts).1.parseOpts (c0.readOpts).2).2 k = some pv := by
    refine parseOpts_lookup_known _ _ _ v d pv ?_ (by rw [hO1]; exact ho) hp
    rw [hraw]
    exact hv
  have hmem2 : (k, pv) ∈ ((c0.readOpts).1.parseOpts (c0.readOpts).2).2 :=
    mem_of_lookupA _ _ _ hpl
  have hx : ("error", "Invalid value for \"" ++ k ++ "\"; using default=" ++
      showVal d.default) ∈ (((c0.readOpts).1.parseOpts (c0.readOpts).2).1.validateOpts
      ((c0.readOpts).1.parseOpts (c0.readOpts).2).2).1.log_msgs := by
    have hmsg : ("error", "Invalid value for \"" ++ k ++ "\"; using default=" ++
        showVal d.default)
        = (("error", "Invalid value for \"" ++ k ++ "\"; using default=" ++
          showVal ((lookupA ((c0.readOpts).1.parseOpts (c0.readOpts).2).1.opts k).getD
            Val.vNone)) : String × String) := by
      rw [logExt_opts e2, logExt_opts e1]
      show _ = (("error", "Invalid value for \"" ++ k ++ "\"; using default=" ++
        showVal ((lookupA (get_default c.OPTS) k).getD Val.vNone)) : String × String)
      rw [lookupA_get_default, ho]
      rfl
    rw [hmsg]
    refine validateOpts_invalid_logged _ _ k pv d hmem2 ?_ hvalid ?_
    · rw [logExt_OPTS e2, hO1]
      exact ho
    · rw [logExt_logging e2, logExt_logging e1]
      exact hl
  set c4 : Config := { (((c0.readOpts).1.parseOpts (c0.readOpts).2).1.validateOpts
    ((c0.readOpts).1.parseOpts (c0.readOpts).2).2).1 with
    opts := mergeInto (((c0.readOpts).1.parseOpts (c0.readOpts).2).1.validateOpts
      ((c0.readOpts).1.parseOpts (c0.readOpts).2).2).1.opts
      (((c0.readOpts).1.parseOpts (c0.readOpts).2).1.validateOpts
      ((c0.readOpts).1.parseOpts (c0.readOpts).2).2).2 } with hc4
  have e5 := logExt_postRec c4 c4.opts (keysA c4.opts)
  show _ ∈ (c4.postRec c4.opts (keysA c4.opts)).1.log_msgs
  refine logExt_log_mem _ e5 ?_
  rw [hc4]
  show _ ∈ (((c0.readOpts).1.parseOpts (c0.readOpts).2).1.validateOpts
    ((c0.readOpts).1.parseOpts (c0.readOpts).2).2).1.log_msgs
  exact hx

theorem update_post_error_logged (c : Config)
    (secs : List (String × List (String × String))) (items : List (String × String))
    (k v : String) (d : OptDesc) (pv : Val)
    (f : List (String × Val) → String → Val → Option Val) (g : Val → Option Val)
    (hread : readConf c.conf_file = some secs)
    (hitems : lookupA secs DUMMY = some items)
    (hv : lookupA items k = some v)
    (ho : lookupA c.OPTS k = some d)
    (hp : parsedVal d k v = some pv)
    (hvalid : validOk d pv = true)
    (hpost : d.post = some f)
    (hg : ∀ tt n x, f tt n x = g x)
    (hgv : g pv = none)
    (hnodup : (keysA c.OPTS).Nodup)
    (hl : c.logging = true) :
    ("error", "Error running post for \"" ++ k ++ "\"; using default=" ++ showVal pv)
      ∈ (c.update).log_msgs := by
  simp only [Config.update, Config.postOpts]
  set c0 : Config := { c with opts := get_default c.OPTS } with hc0
  have e1 := logExt_readOpts c0
  have hraw : (c0.readOpts).2 = items := by
    simp only [Config.readOpts, hc0, hread, hitems]
    rfl
  have e2 := logExt_parseOpts (c0.readOpts).1 (c0.readOpts).2
  have hO1 : (c0.readOpts).1.OPTS = c.OPTS := by rw [logExt_OPTS e1, hc0]
  have hpl : lookupA ((c0.readOpts).1.parseOpts (c0.readOpts).2).2 k = some pv := by
    refine parseOpts_lookup_known _ _ _ v d pv ?_ (by rw [hO1]; exact ho) hp
    rw [hraw]
    exact hv
  have hO2 : ((c0.readOpts).1.parseOpts (c0.readOpts).2).1.OPTS = c.OPTS := by
    rw [logExt_OPTS e2, hO1]
  have hvl : lookupA (((c0.readOpts).1.parseOpts (c0.readOpts).2).1.validateOpts
      ((c0.readOpts).1.parseOpts (c0.readOpts).2).2).2 k = some pv :=
    validateOpts_lookup_kept _ _ _ pv d hpl (by rw [hO2]; exact ho) hvalid
  have e3 := logExt_validateOpts ((c0.readOpts).1.parseOpts (c0.readOpts).2).1
    ((c0.readOpts).1.parseOpts (c0.readOpts).2).2
  have hopts3 : (((c0.readOpts).1.parseOpts (c0.readOpts).2).1.validateOpts
      ((c0.readOpts).1.parseOpts (c0.readOpts).2).2).1.opts = get_default c.OPTS := by
    rw [logExt_opts e3, logExt_opts e2, logExt_opts e1]
  have hO3 : (((c0.readOpts).1.parseOpts (c0.readOpts).2).1.validateOpts
      ((c0.readOpts).1.parseOpts (c0.readOpts).2).2).1.OPTS = c.OPTS := by
    rw [logExt_OPTS e3, hO2]
  have hndvalid : (keysA (((c0.readOpts).1.parseOpts (c0.readOpts).2).1.validateOpts
      ((c0.readOpts).1.parseOpts (c0.readOpts).2).2).2).Nodup := by
    have hnditems : (keysA items).Nodup := by
      refine readConf_items_nodup _ _ hread (DUMMY, items) ?_
      exact mem_of_lookupA _ _ _ hitems
    have hnditems2 : (keysA (c0.readOpts).2).Nodup := by
      rw [hraw]
      exact hnditems
    have h1 := keysA_parseOpts_sublist (c0.readOpts).1 (c0.readOpts).2
    have h2 := keysA_validateOpts_sublist ((c0.readOpts).1.parseOpts (c0.readOpts).2).1
      ((c0.readOpts).1.parseOpts (c0.readOpts).2).2
    exact (h2.trans h1).nodup hnditems2
  have hmerged : lookupA (mergeInto (((c0.readOpts).1.parseOpts
      (c0.readOpts).2).1.validateOpts
      ((c0.readOpts).1.parseOpts (c0.readOpts).2).2).1.opts
      (((c0.readOpts).1.parseOpts (c0.readOpts).2).1.validateOpts
      ((c0.readOpts).1.parseOpts (c0.readOpts).2).2).2) k = some pv :=
    lookupA_mergeInto_of_lookup _ _ _ _ hvl hndvalid
  have hmergednd : (keysA (mergeInto (((c0.readOpts).1.parseOpts
      (c0.readOpts).2).1.validateOpts
      ((c0.readOpts).1.parseOpts (c0.readOpts).2).2).1.opts
      (((c0.readOpts).1.parseOpts (c0.readOpts).2).1.validateOpts
      ((c0.readOpts).1.parseOpts (c0.readOpts).2).2).2)).Nodup := by
    refine nodup_keysA_mergeInto _ _ ?_
    rw [hopts3, keysA_get_default]
    exact hnodup
  set c4 : Config := { (((c0.readOpts).1.parseOpts (c0.readOpts).2).1.validateOpts
    ((c0.readOpts).1.parseOpts (c0.readOpts).2).2).1 with
    opts := mergeInto (((c0.readOpts).1.parseOpts (c0.readOpts).2).1.validateOpts
      ((c0.readOpts).1.parseOpts (c0.readOpts).2).2).1.opts
      (((c0.readOpts).1.parseOpts (c0.readOpts).2).1.validateOpts
      ((c0.readOpts).1.parseOpts (c0.readOpts).2).2).2 } with hc4
  show _ ∈ (c4.postRec c4.opts (keysA c4.opts)).1.log_msgs
  refine postRec_post_error_logged c4 c4.opts (keysA c4.opts) k d f g pv ?_ hpost hg ?_ hgv
    ?_ ?_ ?_ ?_
  · rw [hc4]
    show lookupA (((c0.readOpts).1.parseOpts (c0.readOpts).2).1.validateOpts
      ((c0.readOpts).1.parseOpts (c0.readOpts).2).2).1.OPTS k = some d
    rw [hO3]
    exact ho
  · show lookupA (mergeInto (((c0.readOpts).1.parseOpts (c0.readOpts).2).1.validateOpts
      ((c0.readOpts).1.parseOpts (c0.readOpts).2).2).1.opts
      (((c0.readOpts).1.parseOpts (c0.readOpts).2).1.validateOpts
      ((c0.readOpts).1.parseOpts (c0.readOpts).2).2).2) k = some pv
    exact hmerged
  · show (keysA (mergeInto (((c0.readOpts).1.parseOpts (c0.readOpts).2).1.validateOpts
      ((c0.readOpts).1.parseOpts (c0.readOpts).2).2).1.opts
      (((c0.readOpts).1.parseOpts (c0.readOpts).2).1.validateOpts
      ((c0.readOpts).1.parseOpts (c0.readOpts).2).2).2)).Nodup
    exact hmergednd
  · show k ∈ keysA c4.opts
    exact mem_keysA_of_lookupA _ _ _ hmerged
  · show (keysA (mergeInto (((c0.readOpts).1.parseOpts (c0.readOpts).2).1.validateOpts
      ((c0.readOpts).1.parseOpts (c0.readOpts).2).2).1.opts
      (((c0.readOpts).1.parseOpts (c0.readOpts).2).1.validateOpts
      ((c0.readOpts).1.parseOpts (c0.readOpts).2).2).2)).Nodup
    exact hmergednd
  · rw [hc4]
    show (((c0.readOpts).1.parseOpts (c0.readOpts).2).1.validateOpts
      ((c0.readOpts).1.parseOpts (c0.readOpts).2).2).1.logging = true
    rw [logExt_logging e3, logExt_logging e2, logExt_logging e1]
    exact hl

/-! Substring facts for diagnostic messages. -/

theorem findSub_append (l pat r : List Char) :
    (findSub (l ++ (pat ++ r)) pat).isSome = true := by
  induction l with
  | nil =>
    cases pat with
    | nil =>
      cases r with
      | nil => rfl
      | cons c t => simp [findSub]
    | cons c p =>
      simp only [List.nil_append, findSub]
      rw [if_pos]
      · rfl
      · rw [List.isPrefixOf_iff_prefix]
        exact List.prefix_append _ _
  | cons ch l ih =>
    simp only [List.cons_append, findSub, List.append_eq]
    by_cases hp : pat.isPrefixOf (ch :: (l ++ (pat ++ r)))
    · rw [if_pos hp]
      rfl
    · rw [if_neg hp]
      simpa using ih

theorem strContains_of_parts (s pat : String) (l r : List Char)
    (h : s.data = l ++ (pat.data ++ r)) : strContains s pat = true := by
  unfold strContains
  rw [h, findSub_append]

/-! Claims. -/

/-- C9: the black/white-list validate hook `valid_bw` accepts a parsed
rule list if and only if every rule's polarity is a member of the allowed
set, allow (`'w'`, white-list) or deny (`'b'`, black-list). -/
theorem claim_C9_valid_bw_iff (rules : List (String × String × String)) :
    valid_bw (Val.vBW rules) = true ↔
      ∀ rule ∈ rules, rule.1 = allowPolarity ∨ rule.1 = denyPolarity := by
  unfold valid_bw
  rw [List.all_eq_true]
  constructor
  · intro h rule hr
    have h2 := h rule hr
    simp only [Bool.or_eq_true, beq_iff_eq] at h2
    rcases h2 with h1 | h1
    · exact Or.inr (by simpa [denyPolarity] using h1)
    · exact Or.inl (by simpa [allowPolarity] using h1)
  · intro h rule hr
    rcases h rule hr with h1 | h1
    · simp [h1, allowPolarity]
    · simp [h1, denyPolarity]

/-- C10: for a name that is not registered in the schema table,
`set_opt` and `save_opt` return `False` without raising (the `KeyError`
is swallowed by the bare `except`), and leave the whole state — live
option table and config file included — unchanged. -/
theorem claim_C10_unknown_set_save (c : Config) (name v : String)
    (msg : Option String) (now : String)
    (h : lookupA c.OPTS name = none) :
    c.set_opt name v = (c, false) ∧ c.save_opt name v msg now = (c, false) := by
  have hset : c.set_opt name v = (c, false) := by
    unfold Config.set_opt
    simp only [h]
  refine ⟨hset, ?_⟩
  unfold Config.save_opt
  rw [hset]

/-- Witness for C10 at a concrete configuration and unregistered name. -/
theorem claim_C10_witness :
    cfgC10.set_opt "nope" "1" = (cfgC10, false) ∧
    cfgC10.save_opt "nope" "1" none "T" = (cfgC10, false) :=
  claim_C10_unknown_set_save cfgC10 "nope" "1" none "T" rfl

/-- C7: for a registered option and a raw value on which some stage of the
pipeline fails (parse raises, validate rejects, or post raises against the
live table), `set_opt` returns `False` with the state unchanged, and
`save_opt` therefore returns `False` without touching the config file and
with the live table keeping its previous value. -/
theorem claim_C7_pipeline_failure_rejects (c : Config) (name v : String) (d : OptDesc)
    (msg : Option String) (now : String)
    (ho : lookupA c.OPTS name = some d)
    (hf : pipelineFails c.opts d name v) :
    c.set_opt name v = (c, false) ∧ c.save_opt name v msg now = (c, false) := by
  have hset : c.set_opt name v = (c, false) := by
    unfold Config.set_opt
    simp only [ho]
    rcases hf with h1 | ⟨pv, h1, h2⟩ | ⟨pv, f, h1, h2, h3, h4⟩
    · simp only [h1]
    · simp only [h1, h2]
      simp
    · simp only [h1, h2, h3, h4]
      simp
  refine ⟨hset, ?_⟩
  unfold Config.save_opt
  rw [hset]

/-- Witness for C7: the boolean option `flag` rejects the raw value
`maybe` at the parse stage, and the state is untouched. -/
theorem claim_C7_witness :
    cfgC7.set_opt "flag" "maybe" = (cfgC7, false) ∧
    cfgC7.save_opt "flag" "maybe" none "T" = (cfgC7, false) :=
  claim_C7_pipeline_failure_rejects cfgC7 "flag" "maybe" dBool none "T" rfl (Or.inl rfl)

/-- C6: reload never raises to its caller — in the embedding it is a
total function whose result is always classified as one of `FAIL`,
`ERRORS`, `SUCCESS` (first conjunct, unconditional).  A file read failure
yields an empty raw map and (when logging is enabled) a critical-severity
entry in the deferred queue (second conjunct).  On a readable file, a
per-option failure of the parse hook, the validate hook, or a
(value-determined) post hook is absorbed: an error-severity entry naming
the option is appended to the deferred queue and the failure is reflected
only in the returned status code, which is then never `SUCCESS` (third to
fifth conjuncts).  The only raise of the subsystem is `DuplicateOptError`
in `add_opt`, visible in its `Except` result type (last conjunct). -/
theorem claim_C6_reload_absorbs_failures (c : Config) :
    (∀ log : Bool, (c.reload log).2 = Config.FAIL ∨ (c.reload log).2 = Config.ERRORS ∨
      (c.reload log).2 = Config.SUCCESS) ∧
    (readConf c.conf_file = none →
      (c.readOpts).2 = [] ∧
      (c.logging = true →
        ("critical", "Unable to read/parse config file") ∈ (c.readOpts).1.log_msgs)) ∧
    (∀ secs items k v d,
      readConf c.conf_file = some secs → lookupA secs DUMMY = some items →
      (k, v) ∈ items → lookupA c.OPTS k = some d → parsedVal d k v = none →
      ("error", "Error parsing \"" ++ k ++ "\"; using default=" ++ showVal d.default)
        ∈ (c.reload true).1.log_msgs ∧ (c.reload true).2 ≠ Config.SUCCESS) ∧
    (∀ secs items k v d pv,
      readConf c.conf_file = some secs → lookupA secs DUMMY = some items →
      lookupA items k = some v → lookupA c.OPTS k = some d →
      parsedVal d k v = some pv → validOk d pv = false →
      ("error", "Invalid value for \"" ++ k ++ "\"; using default=" ++ showVal d.default)
        ∈ (c.reload true).1.log_msgs ∧ (c.reload true).2 ≠ Config.SUCCESS) ∧
    (∀ secs items k v d pv
      (f : List (String × Val) → String → Val → Option Val) (g : Val → Option Val),
      readConf c.conf_file = some secs → lookupA secs DUMMY = some items →
      lookupA items k = some v → lookupA c.OPTS k = some d →
      parsedVal d k v = some pv → validOk d pv = true →
      d.post = some f → (∀ tt n x, f tt n x = g x) → g pv = none →
      (keysA c.OPTS).Nodup →
      ("error", "Error running post for \"" ++ k ++ "\"; using default=" ++ showVal pv)
        ∈ (c.reload true).1.log_msgs ∧ (c.reload true).2 ≠ Config.SUCCESS) ∧
    (∀ name d ns, (c.add_opt name d ns).2 = Except.ok () ∨
      (c.add_opt name d ns).2 = Except.error "") := by
  refine ⟨fun log => reload_status_cases c log, ?_, ?_, ?_, ?_, ?_⟩
  · intro h
    refine ⟨?_, ?_⟩
    · unfold Config.readOpts
      simp only [h]
    · intro hl
      unfold Config.readOpts
      simp only [h]
      refine logExt_log_mem _ (logExt_trans (logExt_log _ _ _) (logExt_log _ _ _)) ?_
      rw [log_log_msgs, if_pos hl]
      exact List.mem_append_right _ (by simp)
  · intro secs items k v d hread hitems hmem ho hp
    have hlog : ("error", "Error parsing \"" ++ k ++ "\"; using default=" ++
        showVal d.default) ∈ (({ c with logging := true } : Config).update).log_msgs :=
      update_parse_error_logged ({ c with logging := true } : Config) secs items k v d
        hread hitems hmem ho hp rfl
    refine ⟨reload_log_mem c true _ hlog, reload_status_ne_SUCCESS c true ?_⟩
    intro hnil
    rw [hnil] at hlog
    exact List.not_mem_nil _ hlog
  · intro secs items k v d pv hread hitems hv ho hp hvalid
    have hlog : ("error", "Invalid value for \"" ++ k ++ "\"; using default=" ++
        showVal d.default) ∈ (({ c with logging := true } : Config).update).log_msgs :=
      update_valid_error_logged ({ c with logging := true } : Config) secs items k v d pv
        hread hitems hv ho hp hvalid rfl
    refine ⟨reload_log_mem c true _ hlog, reload_status_ne_SUCCESS c true ?_⟩
    intro hnil
    rw [hnil] at hlog
    exact List.not_mem_nil _ hlog
  · intro secs items k v d pv f g hread hitems hv ho hp hvalid hpost hg hgv hnodup
    have hlog : ("error", "Error running post for \"" ++ k ++ "\"; using default=" ++
        showVal pv) ∈ (({ c with logging := true } : Config).update).log_msgs :=
      update_post_error_logged ({ c with logging := true } : Config) secs items k v d pv
        f g hread hitems hv ho hp hvalid hpost hg hgv hnodup rfl
    refine ⟨reload_log_mem c true _ hlog, reload_status_ne_SUCCESS c true ?_⟩
    intro hnil
    rw [hnil] at hlog
    exact List.not_mem_nil _ hlog
  · intro name d ns
    unfold Config.add_opt
    split
    · exact Or.inr rfl
    · exact Or.inl rfl

/-- Witness for C6: the unconditional classification and the read-failure
clauses at a configuration whose file has a malformed line (`cfgC6`), and
the three absorption clauses at readable one-option files whose option
fails parse (`cfgC6b`), validation (`cfgC6c`) and post (`cfgC6d`)
respectively, plus a concrete registration result. -/
theorem claim_C6_witness :
    ((cfgC6.reload true).2 = Config.FAIL ∨ (cfgC6.reload true).2 = Config.ERRORS ∨
      (cfgC6.reload true).2 = Config.SUCCESS) ∧
    ((cfgC6.readOpts).2 = [] ∧
      (cfgC6.logging = true →
        ("critical", "Unable to read/parse config file") ∈ (cfgC6.readOpts).1.log_msgs)) ∧
    (("error", "Error parsing \"" ++ "flag" ++ "\"; using default=" ++
        showVal dBool.default) ∈ (cfgC6b.reload true).1.log_msgs ∧
      (cfgC6b.reload true).2 ≠ Config.SUCCESS) ∧
    (("error", "Invalid value for \"" ++ "vx" ++ "\"; using default=" ++
        showVal dValFail.default) ∈ (cfgC6c.reload true).1.log_msgs ∧
      (cfgC6c.reload true).2 ≠ Config.SUCCESS) ∧
    (("error", "Error running post for \"" ++ "x" ++ "\"; using default=" ++
        showVal (Val.vStr "5")) ∈ (cfgC6d.reload true).1.log_msgs ∧
      (cfgC6d.reload true).2 ≠ Config.SUCCESS) ∧
    ((cfgC6.add_opt "fresh" dPlain "ns").2 = Except.ok () ∨
      (cfgC6.add_opt "fresh" dPlain "ns").2 = Except.error "") :=
  ⟨(claim_C6_reload_absorbs_failures cfgC6).1 true,
   (claim_C6_reload_absorbs_failures cfgC6).2.1 rfl,
   (claim_C6_reload_absorbs_failures cfgC6b).2.2.1 [(DUMMY, [("flag", "zzz")])]
     [("flag", "zzz")] "flag" "zzz" dBool (by decide) rfl (by decide) rfl (by decide),
   (claim_C6_reload_absorbs_failures cfgC6c).2.2.2.1 [(DUMMY, [("vx", "1")])]
     [("vx", "1")] "vx" "1" dValFail (Val.vStr "1") (by decide) rfl (by decide) rfl rfl
     rfl,
   (claim_C6_reload_absorbs_failures cfgC6d).2.2.2.2.1 [(DUMMY, [("x", "5")])]
     [("x", "5")] "x" "5" dPostFail (Val.vStr "5") postFailHook (fun _ => none)
     (by decide) rfl (by decide) rfl rfl rfl rfl (fun _ _ _ => rfl) rfl (by decide),
   (claim_C6_reload_absorbs_failures cfgC6).2.2.2.2.2 "fresh" dPlain "ns"⟩

/-- C8, counterexample to the claim as stated: the source raises
`DuplicateOptError` with no arguments, so the exception's own message is
empty and identifies neither the original namespace (`sibylbot`) nor the
conflicting one (`plugin`); the diagnostic naming both goes to the
deferred log instead. -/
theorem claim_C8_counterexample :
    (cfgC8.add_opt "x" dPlain "plugin").2 = Except.error "" ∧
    strContains "" "sibylbot" = false ∧
    strContains "" "plugin" = false := by
  exact ⟨rfl, rfl, rfl⟩

/-- C8 as amended: a second registration of an existing name fails with
`DuplicateOptError` (whose own message is empty), logs a critical
diagnostic that contains both the original and the conflicting namespace,
and leaves the schema table and the namespace map unchanged. -/
theorem claim_C8_amended_duplicate (c : Config) (name : String) (d d0 : OptDesc) (ns : String)
    (ho : lookupA c.OPTS name = some d0) (hlog : c.logging = true) :
    (c.add_opt name d ns).1.OPTS = c.OPTS ∧
    (c.add_opt name d ns).1.NS = c.NS ∧
    (c.add_opt name d ns).2 = Except.error "" ∧
    ("critical", "Duplicate opt \"" ++ name ++ "\" from \"" ++
      ((lookupA c.NS name).getD "") ++ "\" and \"" ++ ns ++ "\"")
      ∈ (c.add_opt name d ns).1.log_msgs ∧
    strContains ("Duplicate opt \"" ++ name ++ "\" from \"" ++
      ((lookupA c.NS name).getD "") ++ "\" and \"" ++ ns ++ "\"")
      ((lookupA c.NS name).getD "") = true ∧
    strContains ("Duplicate opt \"" ++ name ++ "\" from \"" ++
      ((lookupA c.NS name).getD "") ++ "\" and \"" ++ ns ++ "\"") ns = true := by
  unfold Config.add_opt
  rw [ho]
  simp only [Option.isSome_some]
  rw [if_pos trivial]
  refine ⟨rfl, rfl, rfl, ?_, ?_, ?_⟩
  · rw [log_log_msgs, if_pos hlog]
    exact List.mem_append_right _ (by simp)
  · refine strContains_of_parts _ _
      ("Duplicate opt \"" ++ name ++ "\" from \"").data
      ("\" and \"" ++ ns ++ "\"").data ?_
    simp [List.append_assoc]
  · refine strContains_of_parts _ _
      ("Duplicate opt \"" ++ name ++ "\" from \"" ++
        ((lookupA c.NS name).getD "") ++ "\" and \"").data ("\"").data ?_
    simp [List.append_assoc]

/-- Witness for the amended C8 at a concrete duplicate registration. -/
theorem claim_C8_witness :
    (cfgC8.add_opt "x" dBool "plugin").1.OPTS = cfgC8.OPTS ∧
    (cfgC8.add_opt "x" dBool "plugin").1.NS = cfgC8.NS ∧
    (cfgC8.add_opt "x" dBool "plugin").2 = Except.error "" ∧
    ("critical", "Duplicate opt \"x\" from \"sibylbot\" and \"plugin\"")
      ∈ (cfgC8.add_opt "x" dBool "plugin").1.log_msgs := by
  have h := claim_C8_amended_duplicate cfgC8 "x" dBool dPlain "plugin" rfl rfl
  exact ⟨h.1, h.2.1, h.2.2.1, h.2.2.2.1⟩

/-- C1, evaluation at the failing input: option `x` is registered (with an
always-raising post hook) and present in the file as `x = 5`, yet after
`reload()` the final option table has no entry for `x` at all — it is
neither total over the schema keys nor mapping `x` to its default — even
though the engine logged that it would be "using default".  The deletion
`del opts[opt]` in `__post` acts on the final merged table itself. -/
theorem claim_C1_code_bug_eval :
    (lookupA cfgC1.OPTS "x").isSome = true ∧
    lookupA ((cfgC1.reload true).1.opts) "x" = none ∧
    ("error", "Error running post for \"x\"; using default=5")
      ∈ (cfgC1.reload true).1.log_msgs := by
  refine ⟨rfl, by decide, by decide⟩

/-- C2, counterexample to the claim as stated: with one non-required
option registered and a file containing only the unknown key `foo`,
reload drops `foo` with an informational log entry as claimed, but
returns `ERRORS`, not `SUCCESS`: the Python 2 comparison
`x[0] >= logging.WARNING` is string-versus-int and always true, so the
informational entry itself counts as a warning. -/
theorem claim_C2_counterexample :
    (cfgC2.reload true).2 = Config.ERRORS ∧
    Config.ERRORS ≠ Config.SUCCESS ∧
    lookupA ((cfgC2.reload true).1.opts) "foo" = none ∧
    ("info", "Unknown config option \"foo\"") ∈ (cfgC2.reload true).1.log_msgs := by
  refine ⟨by decide, by decide, by decide, by decide⟩


/-- C2 as amended: when the file reads successfully and every key in it is
unknown, each unknown key is logged at informational severity and is
absent from the final option table, and — provided no registered option is
required — `reload()` returns `ERRORS`, not `SUCCESS`, because under the
Python 2 string-to-int comparison every queued message counts as a
warning. -/
theorem claim_C2_amended_unknown_keys (c : Config)
    (secs : List (String × List (String × String))) (items : List (String × String))
    (hread : readConf c.conf_file = some secs)
    (hitems : lookupA secs DUMMY = some items)
    (hunknown : ∀ kv ∈ items, lookupA c.OPTS kv.1 = none)
    (hne : items ≠ [])
    (hnoreq : ∀ kd ∈ c.OPTS, kd.2.req = false) :
    (∀ kv ∈ items, lookupA ((c.reload true).1.opts) kv.1 = none) ∧
    (∀ kv ∈ items, ("info", "Unknown config option \"" ++ kv.1 ++ "\"")
      ∈ (c.reload true).1.log_msgs) ∧
    (c.reload true).2 = Config.ERRORS := by
  set c' : Config := { c with logging := true } with hc'
  have hOc' : c'.OPTS = c.OPTS := rfl
  have habsent : ∀ kv ∈ items, lookupA (c'.update).opts kv.1 = none := by
    intro kv hkv
    exact update_lookup_unknown c' kv.1 (hunknown kv hkv)
  have hinfo : ∀ kv ∈ items, ("info", "Unknown config option \"" ++ kv.1 ++ "\"")
      ∈ (c'.update).log_msgs := by
    intro kv hkv
    refine update_log_mem c' _ ?_
    set c0 : Config := { c' with opts := get_default c'.OPTS } with hc0
    have e1 := logExt_readOpts c0
    have hraw : (c0.readOpts).2 = items := by
      simp only [Config.readOpts, hc0]
      show (match readConf c.conf_file with
        | none => _
        | some secs => _ : Config × List (String × String)).2 = items
      rw [hread]
      simp only [hitems]
      rfl
    refine parseOpts_unknown_logged (c0.readOpts).1 (c0.readOpts).2 kv.1 kv.2 ?_ ?_ ?_
    · rw [hraw]
      exact hkv
    · rw [logExt_OPTS e1]
      exact hunknown kv hkv
    · rw [logExt_logging e1]
  have hzero : (c'.update).reqCheck (c'.update).opts = (c'.update, 0) := by
    refine reqCheck_zero _ _ ?_
    intro kv hkv d hd
    rw [(update_preserves c').1] at hd
    have := hnoreq (kv.1, d) (mem_of_lookupA _ _ _ hd)
    simp only at this
    rw [this]
    rfl
  have hne2 : (c'.update).log_msgs ≠ [] := by
    obtain ⟨kv, hkv⟩ := List.exists_mem_of_ne_nil items hne
    intro hempty
    rw [hempty] at hinfo
    exact (List.not_mem_nil _) (hinfo kv hkv)
  refine ⟨?_, ?_, ?_⟩
  · intro kv hkv
    rw [reload_opts_eq c true]
    exact habsent kv hkv
  · intro kv hkv
    exact reload_log_mem c true _ (hinfo kv hkv)
  · exact reload_status_ERRORS c true hzero hne2

/-- Witness for the amended C2 at the concrete configuration whose file
holds only the unknown key `foo`. -/
theorem claim_C2_witness :
    (∀ kv ∈ [("foo", "1")], lookupA ((cfgC2.reload true).1.opts) kv.1 = none) ∧
    (∀ kv ∈ [("foo", "1")], ("info", "Unknown config option \"" ++ kv.1 ++ "\"")
      ∈ (cfgC2.reload true).1.log_msgs) ∧
    (cfgC2.reload true).2 = Config.ERRORS := by
  refine claim_C2_amended_unknown_keys cfgC2 [(DUMMY, [("foo", "1")])] [("foo", "1")]
    (by decide) rfl ?_ (by decide) ?_
  · intro kv hkv
    rw [List.mem_singleton] at hkv
    subst hkv
    rfl
  · intro kd hkd
    simp only [cfgC2] at hkd
    rw [List.mem_singleton] at hkd
    subst hkd
    rfl


/-- C3, counterexample to the claim as stated: with the non-idempotent
post hook that increments its integer value, `x = 5` parses to `5`; if the
post hook were applied twice (once per-option, once over the merged
table), the final value would be `7`, but `reload()` leaves `6` — during a
reload the post hook runs exactly once, over the merged table (`__update`
has no per-option post pass). -/
theorem claim_C3_counterexample :
    lookupA ((cfgC3.reload true).1.opts) "x" = some (Val.vInt 6) ∧
    incrPost [] "x" (Val.vInt 5) = some (Val.vInt 6) ∧
    (incrPost [] "x" (Val.vInt 5) >>= fun y => incrPost [] "x" y) = some (Val.vInt 7) ∧
    lookupA ((cfgC3.reload true).1.opts) "x" ≠ some (Val.vInt 7) := by
  refine ⟨by decide, rfl, rfl, by decide⟩

/-- C3 as amended: during `reload()`, for an option present in the file
whose value survives parse and validate and whose post hook transforms the
value independently of the table (`f tt n x = g x`), the final table holds
the result of a single application of the hook over the merged table:
`g pv` (so the entry is the once-transformed value on success, and absent
when the single application raises) — never a twice-applied value. -/
theorem claim_C3_amended_post_once (c : Config) (name v : String) (d : OptDesc) (pv : Val)
    (secs : List (String × List (String × String))) (items : List (String × String))
    (f : List (String × Val) → String → Val → Option Val) (g : Val → Option Val)
    (log : Bool)
    (ho : lookupA c.OPTS name = some d)
    (hread : readConf c.conf_file = some secs)
    (hitems : lookupA secs DUMMY = some items)
    (hv : lookupA items name = some v)
    (hp : parsedVal d name v = some pv)
    (hvalid : validOk d pv = true)
    (hnodup : (keysA c.OPTS).Nodup)
    (hpost : d.post = some f) (hg : ∀ tt n x, f tt n x = g x) :
    lookupA ((c.reload log).1.opts) name = g pv := by
  rw [reload_opts_eq c log]
  exact (update_lookup_survivor ({ c with logging := log }) name v d pv secs items
    ho hread hitems hv hp hvalid hnodup).2 f g hpost hg

/-- Witness for the amended C3: the incrementing hook applied once maps
`5` to `6`. -/
theorem claim_C3_witness :
    lookupA ((cfgC3.reload true).1.opts) "x" = incrVal (Val.vInt 5) := by
  exact claim_C3_amended_post_once cfgC3 "x" "5" dIncr (Val.vInt 5)
    [(DUMMY, [("x", "5")])] [("x", "5")] incrPost incrVal true rfl (by decide) rfl rfl
    rfl rfl (by decide) rfl (fun _ _ _ => rfl)


/-! Lemmas about the in-place editor. -/

theorem set_opt_success_nopost (c : Config) (name v : String) (d : OptDesc) (pv : Val)
    (ho : lookupA c.OPTS name = some d) (hp : parsedVal d name v = some pv)
    (hvalid : validOk d pv = true) (hpost : d.post = none) :
    c.set_opt name v = ({ c with opts := setA c.opts name pv }, true) := by
  unfold Config.set_opt
  simp only [ho, hp, hvalid, hpost]
  simp

theorem findIdx?_append_first (p : String → Bool) (pre rest : List String) (old : String)
    (hpre : ∀ l ∈ pre, p l = false) (hold : p old = true) :
    (pre ++ old :: rest).findIdx? p = some pre.length := by
  induction pre with
  | nil => simp [List.findIdx?_cons, hold]
  | cons a t ih =>
    have ha : p a = false := hpre a (List.mem_cons_self _ _)
    rw [List.cons_append, List.findIdx?_cons, ha]
    simp only [Bool.false_eq_true, if_false]
    rw [List.findIdx?_succ, ih (fun l hl => hpre l (List.mem_cons_of_mem _ hl))]
    simp [List.length_cons]

theorem saveLines_found (pre rest : List String) (old opt : String) (block : List String)
    (hpre : ∀ l ∈ pre, pyStartsWith (pyStrip l) opt = false)
    (hold : pyStartsWith (pyStrip old) opt = true)
    (hstamp : ∀ l, pre.getLast? = some l → pyStartsWith l "### MODIFIED: " = false) :
    saveLines (pre ++ old :: rest) opt block = pre ++ block ++ delCont rest := by
  unfold saveLines
  rw [findIdx?_append_first (fun l => pyStartsWith (pyStrip l) opt) pre rest old hpre hold]
  have hdrop : (pre ++ old :: rest).drop (pre.length + 1) = rest := by
    rw [← List.drop_drop, List.drop_left]
    rfl
  simp only [List.take_left, hdrop]
  cases hlast : pre.getLast? with
  | none => simp
  | some lastLine =>
    simp only []
    rw [hstamp lastLine hlast]
    simp

theorem saveLines_found_general (pre rest : List String) (old opt : String)
    (block : List String)
    (hpre : ∀ l ∈ pre, pyStartsWith (pyStrip l) opt = false)
    (hold : pyStartsWith (pyStrip old) opt = true) :
    saveLines (pre ++ old :: rest) opt block =
      (if pyStartsWith (pre.getLast?.getD "") "### MODIFIED: " then pre.dropLast else pre)
      ++ block ++ delCont rest := by
  unfold saveLines
  rw [findIdx?_append_first (fun l => pyStartsWith (pyStrip l) opt) pre rest old hpre hold]
  have hdrop : (pre ++ old :: rest).drop (pre.length + 1) = rest := by
    rw [← List.drop_drop, List.drop_left]
    rfl
  simp only [List.take_left, hdrop]
  cases hlast : pre.getLast? with
  | none =>
    simp only [Option.getD_none]
    rw [if_neg (by decide)]
  | some lastLine =>
    simp only [Option.getD_some]
    by_cases hs : pyStartsWith lastLine "### MODIFIED: " = true
    · rw [if_pos hs, if_pos hs]
    · rw [if_neg hs, if_neg hs]

theorem delCont_keeps_comments (rest : List String) (l : String) (hl : l ∈ rest)
    (hcom : commentBlank l = true) : l ∈ delCont rest := by
  induction rest with
  | nil => simp at hl
  | cons a t ih =>
    unfold delCont
    by_cases h1 : is_opt_line (pyStrip a)
    · rw [if_pos h1]
      exact hl
    · rw [if_neg h1]
      unfold commentBlank at hcom
      by_cases h2 : pyStartsWith (pyStrip a) "#" || pyStartsWith (pyStrip a) ";" ||
          (pyStrip a).length == 0
      · rw [if_pos h2]
        rcases List.mem_cons.mp hl with rfl | hl2
        · exact List.mem_cons_self _ _
        · exact List.mem_cons_of_mem _ (ih hl2)
      · rw [if_neg h2]
        rcases List.mem_cons.mp hl with rfl | hl2
        · exact absurd hcom h2
        · exact ih hl2

theorem delCont_id_of_good (rest : List String)
    (h : ∀ l ∈ rest, goodLine l = true) : delCont rest = rest := by
  induction rest with
  | nil => rfl
  | cons a t ih =>
    have ha := h a (List.mem_cons_self _ _)
    unfold delCont
    by_cases h1 : is_opt_line (pyStrip a)
    · rw [if_pos h1]
    · rw [if_neg h1]
      have ha2 : commentBlank a = true ∨ goodAssign a = true := by
        unfold goodLine at ha
        simpa [Bool.or_eq_true] using ha
      rcases ha2 with hcb | hga
      · unfold commentBlank at hcb
        rw [if_pos hcb, ih (fun l hl => h l (List.mem_cons_of_mem _ hl))]
      · have : is_opt_line (pyStrip a) = true := by
          unfold goodAssign at hga
          simp only [Bool.and_eq_true] at hga
          exact hga.1.2
        exact absurd this h1


/-! Lemmas about reading back a well-formed file. -/

theorem readStep_some (secs : List (String × List (String × String))) (cur l : String) :
    readStep (some (secs, cur)) l =
      (if pyStrip l = "" then some (secs, cur)
       else if pyStartsWith (pyStrip l) "#" || pyStartsWith (pyStrip l) ";" then
         some (secs, cur)
       else if pyStartsWith (pyStrip l) "[" && pyEndsWith (pyStrip l) "]" then
         (if (lookupA secs (String.mk ((pyStrip l).data.drop 1).dropLast)).isSome then
            some (secs, String.mk ((pyStrip l).data.drop 1).dropLast)
          else
            some (secs ++ [(String.mk ((pyStrip l).data.drop 1).dropLast, [])],
              String.mk ((pyStrip l).data.drop 1).dropLast))
       else
         match splitAssign (pyStrip l) with
         | some kv =>
           some (secs.map (fun s => if s.1 = cur then (s.1, setA s.2 kv.1 kv.2) else s), cur)
         | none => none) := rfl

theorem itemsOf_cons (init : List (String × String)) (l : String) (ls : List String) :
    itemsOf init (l :: ls) =
      (if commentBlank l then itemsOf init ls
       else
         match splitAssign (pyStrip l) with
         | some kv => itemsOf (setA init kv.1 kv.2) ls
         | none => itemsOf init ls) := rfl

theorem readConf_good_aux (lines : List String) (acc : List (String × String))
    (h : ∀ l ∈ lines, goodLine l = true) :
    lines.foldl readStep (some ([(DUMMY, acc)], DUMMY)) =
      some ([(DUMMY, itemsOf acc lines)], DUMMY) := by
  induction lines generalizing acc with
  | nil => rfl
  | cons l ls ih =>
    have hl := h l (List.mem_cons_self _ _)
    have htail := fun l2 hl2 => h l2 (List.mem_cons_of_mem _ hl2)
    simp only [List.foldl_cons]
    by_cases hb : (pyStrip l).length == 0
    · have hb2 : pyStrip l = "" := by
        cases hps : pyStrip l with
        | mk data =>
          rw [hps] at hb
          cases data with
          | nil => rfl
          | cons c cs => simp [String.length] at hb
      rw [readStep_some, if_pos hb2, itemsOf_cons,
        if_pos (by unfold commentBlank; rw [hb]; simp)]
      exact ih acc htail
    · by_cases hc : pyStartsWith (pyStrip l) "#" || pyStartsWith (pyStrip l) ";"
      · have hb2 : ¬ pyStrip l = "" := by
          intro hh
          rw [hh] at hb
          simp at hb
        rw [readStep_some, if_neg hb2, if_pos hc, itemsOf_cons,
          if_pos (by unfold commentBlank; rw [hc]; simp)]
        exact ih acc htail
      · have hc2 : (pyStartsWith (pyStrip l) "#" || pyStartsWith (pyStrip l) ";") = false :=
          Bool.eq_false_iff.mpr hc
        have hbf : ((pyStrip l).length == 0) = false := Bool.eq_false_iff.mpr hb
        have hga : goodAssign l = true := by
          have hcb : commentBlank l = false := by
            unfold commentBlank
            rw [hc2, hbf]
            rfl
          unfold goodLine at hl
          rw [hcb] at hl
          simpa using hl
        simp only [goodAssign, Bool.and_eq_true] at hga
        obtain ⟨⟨hsome, hopt⟩, hnosec⟩ := hga
        obtain ⟨kv, hkv⟩ := Option.isSome_iff_exists.mp hsome
        have hb2 : ¬ pyStrip l = "" := by
          intro hh
          rw [hh] at hb
          simp at hb
        have hsecA : pyStartsWith (pyStrip l) "[" = false := by
          cases hx : pyStartsWith (pyStrip l) "["
          · rfl
          · rw [hx] at hnosec
            exact absurd hnosec (by decide)
        rw [readStep_some, if_neg hb2, if_neg (by simpa using hc),
          if_neg (by rw [hsecA]; simp), hkv]
        rw [itemsOf_cons,
          if_neg (by unfold commentBlank; rw [hc2, hbf]; simp), hkv]
        simp only [List.map, eq_self_iff_true, if_true]
        exact ih _ htail

theorem readConf_good (lines : List String)
    (h : ∀ l ∈ lines, goodLine l = true) :
    readConf lines = some [(DUMMY, itemsOf [] lines)] := by
  unfold readConf
  rw [readConf_good_aux lines [] h]
  rfl

theorem itemsOf_append (init : List (String × String)) (l1 l2 : List String) :
    itemsOf init (l1 ++ l2) = itemsOf (itemsOf init l1) l2 := by
  induction l1 generalizing init with
  | nil => rfl
  | cons a t ih =>
    rw [List.cons_append, itemsOf_cons, itemsOf_cons]
    by_cases hc : commentBlank a
    · rw [if_pos hc, if_pos hc]
      exact ih init
    · rw [if_neg hc, if_neg hc]
      cases hkv : splitAssign (pyStrip a) with
      | none =>
        simp only [hkv]
        exact ih init
      | some kv =>
        simp only [hkv]
        exact ih _

theorem itemsOf_lookup_of_not_set (init : List (String × String)) (ls : List String)
    (name : String) (h : ∀ l ∈ ls, lineSetsKey l name = false) :
    lookupA (itemsOf init ls) name = lookupA init name := by
  induction ls generalizing init with
  | nil => rfl
  | cons a t ih =>
    have ha := h a (List.mem_cons_self _ _)
    have htail := fun l2 hl2 => h l2 (List.mem_cons_of_mem _ hl2)
    unfold itemsOf
    by_cases hc : commentBlank a
    · rw [if_pos hc]
      exact ih init htail
    · rw [if_neg hc]
      unfold lineSetsKey at ha
      rw [Bool.and_eq_false_iff] at ha
      rcases ha with ha | ha
      · rw [Bool.not_eq_false'] at ha
        exact absurd ha (by simpa using hc)
      · match hkv : splitAssign (pyStrip a) with
        | some kv =>
          rw [hkv] at ha
          have hne : ¬ kv.1 = name := by simpa using ha
          rw [ih _ htail, lookupA_setA_ne _ _ _ _ (fun hh => hne hh.symm)]
        | none => exact ih init htail


theorem set_opt_fields (c : Config) (opt v : String) :
    (c.set_opt opt v).1.OPTS = c.OPTS ∧ (c.set_opt opt v).1.conf_file = c.conf_file ∧
    (c.set_opt opt v).1.log_msgs = c.log_msgs ∧ (c.set_opt opt v).1.logging = c.logging ∧
    (c.set_opt opt v).1.NS = c.NS := by
  unfold Config.set_opt
  split
  · exact ⟨rfl, rfl, rfl, rfl, rfl⟩
  · split
    · exact ⟨rfl, rfl, rfl, rfl, rfl⟩
    · split
      · exact ⟨rfl, rfl, rfl, rfl, rfl⟩
      · split
        · exact ⟨rfl, rfl, rfl, rfl, rfl⟩
        · exact ⟨rfl, rfl, rfl, rfl, rfl⟩

theorem save_opt_found (c : Config) (opt v : String) (msg : Option String)
    (now : String) (pre rest : List String) (old : String)
    (hset : (c.set_opt opt v).2 = true)
    (hfile : c.conf_file = pre ++ old :: rest)
    (hpre : ∀ l ∈ pre, pyStartsWith (pyStrip l) opt = false)
    (hold : pyStartsWith (pyStrip old) opt = true)
    (hstamp : ∀ l, pre.getLast? = some l → pyStartsWith l "### MODIFIED: " = false) :
    (c.save_opt opt v msg now).2 = true ∧
    (c.save_opt opt v msg now).1.conf_file =
      pre ++ stampLine now msg :: assignLine opt v :: delCont rest := by
  have hconf : (c.set_opt opt v).1.conf_file = c.conf_file := (set_opt_fields c opt v).2.1
  unfold Config.save_opt
  rcases hso : c.set_opt opt v with ⟨c1, b⟩
  rw [hso] at hset hconf
  simp only at hset hconf
  subst hset
  refine ⟨rfl, ?_⟩
  show saveLines c1.conf_file opt [stampLine now msg, assignLine opt v] = _
  rw [hconf, hfile,
    saveLines_found pre rest old opt [stampLine now msg, assignLine opt v] hpre hold hstamp]
  simp [List.append_assoc]

theorem save_opt_found_general (c : Config) (opt v : String) (msg : Option String)
    (now : String) (pre rest : List String) (old : String)
    (hset : (c.set_opt opt v).2 = true)
    (hfile : c.conf_file = pre ++ old :: rest)
    (hpre : ∀ l ∈ pre, pyStartsWith (pyStrip l) opt = false)
    (hold : pyStartsWith (pyStrip old) opt = true) :
    (c.save_opt opt v msg now).2 = true ∧
    (c.save_opt opt v msg now).1.conf_file =
      (if pyStartsWith (pre.getLast?.getD "") "### MODIFIED: " then pre.dropLast else pre)
      ++ stampLine now msg :: assignLine opt v :: delCont rest := by
  have hconf : (c.set_opt opt v).1.conf_file = c.conf_file := (set_opt_fields c opt v).2.1
  unfold Config.save_opt
  rcases hso : c.set_opt opt v with ⟨c1, b⟩
  rw [hso] at hset hconf
  simp only at hset hconf
  subst hset
  refine ⟨rfl, ?_⟩
  show saveLines c1.conf_file opt [stampLine now msg, assignLine opt v] = _
  rw [hconf, hfile,
    saveLines_found_general pre rest old opt [stampLine now msg, assignLine opt v] hpre hold]
  simp [List.append_assoc]

/-- C5, counterexample to the claim as stated: replacing `opt1` in a file
where its assignment is followed by a comment line and then the next
option.  The claim says the comment line following the assignment is
deleted together with it; the code keeps every comment and blank line
(the deletion loop skips them with `n += 1`), deleting only continuation
lines. -/
theorem claim_C5_counterexample :
    (cfgC5.save_opt "opt1" "x" none "T").1.conf_file =
      ["# header", "### MODIFIED: T", "opt1 = x", "# keep me", "opt2 = b"] ∧
    (cfgC5.save_opt "opt1" "x" none "T").1.conf_file ≠
      ["# header", "### MODIFIED: T", "opt1 = x", "opt2 = b"] := by
  exact ⟨by decide, by decide⟩

/-- C5 as amended: when `save_opt`'s pipeline pass succeeds, the editor
finds the first line whose stripped text starts with `opt` (a textual
prefix match, not an exact key match), deletes that line together with
every following continuation line while keeping comment and blank lines,
stopping at the next active option line, and inserts the stamped
replacement block at that position; when the line immediately preceding
the match is a modification-stamp comment from an earlier save, that
stamp is removed rather than duplicated (the `pre.dropLast` branch).
Every comment or blank line of the tail survives. -/
theorem claim_C5_amended_save_surgery (c : Config) (opt v : String) (msg : Option String)
    (now : String) (pre rest : List String) (old : String)
    (hset : (c.set_opt opt v).2 = true)
    (hfile : c.conf_file = pre ++ old :: rest)
    (hpre : ∀ l ∈ pre, pyStartsWith (pyStrip l) opt = false)
    (hold : pyStartsWith (pyStrip old) opt = true) :
    (c.save_opt opt v msg now).2 = true ∧
    (c.save_opt opt v msg now).1.conf_file =
      (if pyStartsWith (pre.getLast?.getD "") "### MODIFIED: " then pre.dropLast else pre)
      ++ stampLine now msg :: assignLine opt v :: delCont rest ∧
    (∀ l ∈ rest, commentBlank l = true → l ∈ delCont rest) := by
  obtain ⟨h1, h2⟩ := save_opt_found_general c opt v msg now pre rest old hset hfile hpre hold
  exact ⟨h1, h2, fun l hl hc => delCont_keeps_comments rest l hl hc⟩

/-- Witness for the amended C5 at a concrete file whose matched
assignment is immediately preceded by a stamp comment from an earlier
save: the old stamp falls into the `pre.dropLast` branch and is removed,
while the comment after the assignment survives. -/
theorem claim_C5_witness :
    (cfgC5b.save_opt "opt1" "x" none "T").2 = true ∧
    (cfgC5b.save_opt "opt1" "x" none "T").1.conf_file =
      (if pyStartsWith ((["### MODIFIED: OLD"] : List String).getLast?.getD "")
          "### MODIFIED: "
        then (["### MODIFIED: OLD"] : List String).dropLast
        else ["### MODIFIED: OLD"])
      ++ stampLine "T" none :: assignLine "opt1" "x" ::
        delCont ["# keep me", "opt2 = b"] ∧
    (∀ l ∈ ["# keep me", "opt2 = b"], commentBlank l = true →
      l ∈ delCont ["# keep me", "opt2 = b"]) :=
  claim_C5_amended_save_surgery cfgC5b "opt1" "x" none "T" ["### MODIFIED: OLD"]
    ["# keep me", "opt2 = b"] "opt1 = a" (by decide) rfl
    (by intro l hl; rw [List.mem_singleton] at hl; subst hl; decide) (by decide)


theorem save_opt_OPTS (c : Config) (opt v : String) (msg : Option String) (now : String) :
    (c.save_opt opt v msg now).1.OPTS = c.OPTS := by
  unfold Config.save_opt
  rcases hso : c.set_opt opt v with ⟨c1, b⟩
  have hfields := set_opt_fields c opt v
  rw [hso] at hfields
  cases b
  · exact hfields.1
  · exact hfields.1

/-- C4, counterexample to the claim as stated: with the incrementing post
hook on the integer option `x`, `save(x, "5")` followed by `reload()`
yields `6` — the post hook transforms the parsed value — not the parsed
value `5` the claim promises. -/
theorem claim_C4_counterexample :
    parsedVal dIncr "x" "5" = some (Val.vInt 5) ∧
    ((cfgC4.save_opt "x" "5" none "T").1.reload true).1.get "x" = some (Val.vInt 6) ∧
    ((cfgC4.save_opt "x" "5" none "T").1.reload true).1.get "x" ≠ some (Val.vInt 5) := by
  exact ⟨rfl, by decide, by decide⟩

/-- C4 as amended: for a registered option whose descriptor has no post
hook, a raw value accepted by parse and validate, and a well-formed config
file in which the first line starting with the option's name is its own
assignment and no other line assigns it, `save(name, v)` succeeds, the
file after the save is the old file with exactly the matched assignment
line replaced by the stamped block — every other line, comments included,
byte-for-byte unchanged — and a subsequent `reload()` makes `get(name)`
the parsed value of `v`. -/
theorem claim_C4_amended_roundtrip (c : Config) (name v : String) (d : OptDesc) (pv : Val)
    (msg : Option String) (now : String) (pre rest : List String) (old : String) (log : Bool)
    (ho : lookupA c.OPTS name = some d)
    (hp : parsedVal d name v = some pv)
    (hvalid : validOk d pv = true)
    (hpost : d.post = none)
    (hnodup : (keysA c.OPTS).Nodup)
    (hfile : c.conf_file = pre ++ old :: rest)
    (hpre : ∀ l ∈ pre, pyStartsWith (pyStrip l) name = false)
    (hold : pyStartsWith (pyStrip old) name = true)
    (hstamp : ∀ l, pre.getLast? = some l → pyStartsWith l "### MODIFIED: " = false)
    (hgoodpre : ∀ l ∈ pre, goodLine l = true)
    (hgoodrest : ∀ l ∈ rest, goodLine l = true)
    (hstampcb : commentBlank (stampLine now msg) = true)
    (hassigncb : commentBlank (assignLine name v) = false)
    (hassign : splitAssign (pyStrip (assignLine name v)) = some (name, v))
    (hassigngood : goodLine (assignLine name v) = true)
    (hrestNoSet : ∀ l ∈ rest, lineSetsKey l name = false) :
    (c.save_opt name v msg now).2 = true ∧
    (c.save_opt name v msg now).1.conf_file =
      pre ++ stampLine now msg :: assignLine name v :: rest ∧
    ((c.save_opt name v msg now).1.reload log).1.get name = some pv := by
  have hset2 : (c.set_opt name v).2 = true := by
    rw [set_opt_success_nopost c name v d pv ho hp hvalid hpost]
  obtain ⟨hs1, hs2⟩ := save_opt_found c name v msg now pre rest old hset2 hfile hpre hold hstamp
  rw [delCont_id_of_good rest hgoodrest] at hs2
  refine ⟨hs1, hs2, ?_⟩
  have hOPTS : (c.save_opt name v msg now).1.OPTS = c.OPTS := save_opt_OPTS c name v msg now
  -- the saved file is well-formed, so the reader returns its items
  have hgood : ∀ l ∈ (c.save_opt name v msg now).1.conf_file, goodLine l = true := by
    rw [hs2]
    intro l hl
    rcases List.mem_append.mp hl with hl | hl
    · exact hgoodpre l hl
    · rcases List.mem_cons.mp hl with rfl | hl
      · unfold goodLine
        rw [hstampcb]
        rfl
      · rcases List.mem_cons.mp hl with rfl | hl
        · exact hassigngood
        · exact hgoodrest l hl
  have hread : readConf (c.save_opt name v msg now).1.conf_file =
      some [(DUMMY, itemsOf [] (c.save_opt name v msg now).1.conf_file)] :=
    readConf_good _ hgood
  have hv2 : lookupA (itemsOf [] (c.save_opt name v msg now).1.conf_file) name = some v := by
    rw [hs2, itemsOf_append, itemsOf_cons, if_pos hstampcb, itemsOf_cons,
      if_neg (show ¬ commentBlank (assignLine name v) = true by rw [hassigncb]; simp),
      hassign]
    rw [itemsOf_lookup_of_not_set _ rest name hrestNoSet,
      lookupA_setA_self]
  show lookupA (((c.save_opt name v msg now).1.reload log).1.opts) name = some pv
  rw [reload_opts_eq]
  refine (update_lookup_survivor
    ({ (c.save_opt name v msg now).1 with logging := log }) name v d pv
    [(DUMMY, itemsOf [] (c.save_opt name v msg now).1.conf_file)]
    (itemsOf [] (c.save_opt name v msg now).1.conf_file)
    ?_ ?_ ?_ hv2 hp hvalid ?_).1 hpost
  · show lookupA (c.save_opt name v msg now).1.OPTS name = some d
    rw [hOPTS]
    exact ho
  · exact hread
  · simp
  · show (keysA (c.save_opt name v msg now).1.OPTS).Nodup
    rw [hOPTS]
    exact hnodup

/-- Witness for the amended C4: saving `flag = false` into a well-formed
three-line file and reloading yields the parsed boolean, with the header
comment and the other option's line untouched. -/
theorem claim_C4_witness :
    (cfgC4b.save_opt "flag" "false" none "T").2 = true ∧
    (cfgC4b.save_opt "flag" "false" none "T").1.conf_file =
      ["# head"] ++ stampLine "T" none :: assignLine "flag" "false" :: ["other = z"] ∧
    ((cfgC4b.save_opt "flag" "false" none "T").1.reload true).1.get "flag" =
      some (Val.vBool false) :=
  claim_C4_amended_roundtrip cfgC4b "flag" "false" dBool (Val.vBool false) none "T"
    ["# head"] ["other = z"] "flag = true" true rfl rfl rfl rfl (by decide) rfl
    (by intro l hl; rw [List.mem_singleton] at hl; subst hl; decide)
    (by decide)
    (fun l hl => by injection hl with h; subst h; decide)
    (by intro l hl; rw [List.mem_singleton] at hl; subst hl; decide)
    (by intro l hl; rw [List.mem_singleton] at hl; subst hl; decide)
    (by decide) (by decide) (by decide) (by decide)
    (by intro l hl; rw [List.mem_singleton] at hl; subst hl; decide)

end Sibyl
